import Mathlib

/-!
# The job-control shell of `shell.c`: embedding and checked properties

The C program keeps one global line buffer of `MAX_BUFFER_SIZE` bytes and three global
flags.  The embedding below represents

* a byte (`char`) by its code, a natural number;
* the global `buffer` by the list of its bytes, index `0` first.  A loop of the source that
  walks the buffer with an increasing index is written as a recursion on the bytes that are
  still ahead of the index, so that the end of the list is the bound `MAX_BUFFER_SIZE`;
* a heap string (`argument`, `trimmedString`, `filename`) at two levels.  The functions
  `trim`, `argLoop`, `prepareArguments`, `scanName` and `getFilename` follow the characters:
  a heap string is the list of the characters the code stores into it, in index order.  They
  say how the control flows and which characters reach which string, and nothing about the
  size of an allocation or the place of a terminating byte.  The functions `trimHeap`,
  `argLoopHeap`, `prepareArgumentsHeap`, `scanNameHeap` and `getFilenameHeap` follow the same
  statements on the heap: a block has as many cells as `malloc` or `realloc` was asked for, a
  cell holds a value only once the code has stored one, a store outside the block is a
  fault, and the read of a cell in which nothing was stored yields the byte the allocator
  left there, which is a parameter.  The theorems `trimHeap_zeroed`, `argLoopHeap_onHeap`,
  `prepareArgumentsHeap_zeroed` and `getFilenameHeap_eq` relate the two levels;
* the operating system (the pid returned by `fork`, whether `open` succeeds, the
  descriptor table of a child, the installed signal handlers) by explicit values and state.

The character classes come from `<ctype.h>` in the "C" locale, the only locale the program
runs in, since it never calls `setlocale`.
-/

namespace Shell

/-! ## Constants of the source -/

/-- The `#define MAX_BUFFER_SIZE 513`. -/
abbrev MAX_BUFFER_SIZE : Nat := 513

/-- The `#define MAX_LINE_SIZE 512`. -/
abbrev MAX_LINE_SIZE : Nat := 512

/-- The `#define TRAILING_ZERO '\0'`. -/
abbrev TRAILING_ZERO : Nat := 0

/-- The `#define NEW_LINE '\n'`. -/
abbrev NEW_LINE : Nat := 10

/-- The `#define PIPE_INPUT '<'`. -/
abbrev PIPE_INPUT : Nat := 60

/-- The `#define PIPE_OUTPUT '>'`. -/
abbrev PIPE_OUTPUT : Nat := 62

/-- The `#define PIPE_BACKGROUND '&'`. -/
abbrev PIPE_BACKGROUND : Nat := 38

/-- The blank `' '` that `getFilename` writes over a marker and a file name. -/
abbrev BLANK : Nat := 32

/-- The `isspace` of `<ctype.h>` in the "C" locale: space, and `\t \n \v \f \r`. -/
def isspace (c : Nat) : Bool := c == 32 || (decide (9 ≤ c) && decide (c ≤ 13))

/-- The `isgraph` of `<ctype.h>` in the "C" locale: the printable characters but space. -/
def isgraph (c : Nat) : Bool := decide (33 ≤ c) && decide (c ≤ 126)

/-! ## The line buffer -/

/-- The global `char buffer[MAX_BUFFER_SIZE]`, as the list of its bytes. -/
abbrev Buffer := List Nat

/-- The `strlen` of `<string.h>`: the number of bytes before the first zero byte. -/
def strlen (s : List Nat) : Nat := (s.takeWhile (fun c => c != TRAILING_ZERO)).length

/-- The buffer after `memset(buffer, TRAILING_ZERO, MAX_BUFFER_SIZE)`. -/
def memset : Buffer := List.replicate MAX_BUFFER_SIZE TRAILING_ZERO

/-- The buffer `dst` after `memcpy(dst, src, n)` with `n` the length of `src`: the bytes of
`src` replace the first bytes of `dst`. -/
def memcpy (dst : Buffer) (src : List Nat) : Buffer := src ++ dst.drop src.length

/-! ## `trim` -/

/-- The loop of `trim`.  The first argument holds `buffer[i], buffer[i+1], ...`; the loop
condition `i < strlen(buffer)` fails at the first zero byte.  The last argument is
`trimmedString`, to which `trimmedString[j] = buffer[i]; j++` appends. -/
def trimLoop : List Nat → Nat → Bool → List Nat → List Nat
  | [], _, _, trimmedString => trimmedString
  | c :: rest, i, isLastWhiteSpace, trimmedString =>
    if c = TRAILING_ZERO then trimmedString
    else if isspace c then
      if isLastWhiteSpace then trimLoop rest (i + 1) true trimmedString
      else if i = 0 then trimLoop rest (i + 1) true trimmedString
      else trimLoop rest (i + 1) true (trimmedString ++ [c])
    else trimLoop rest (i + 1) false (trimmedString ++ [c])

/-- The function `trim`, following the characters: the buffer is cleared and receives the
characters the loop stored in `trimmedString`.  The block of `trimmedString` and the
`strlen` that reads it are in `trimHeap`. -/
def trim (buffer : Buffer) : Buffer :=
  memcpy memset (trimLoop buffer 0 false [])

/-! ## `isBufferValid` and `isBackgroundJob` -/

/-- The function `isBufferValid`. -/
def isBufferValid (buffer : Buffer) : Bool :=
  if strlen buffer = 0 then false
  else if isspace (buffer.getD 0 0) then false
  else if buffer.getD 0 0 = PIPE_BACKGROUND then false
  else true

/-- The function `isBackgroundJob`: some byte of the whole buffer is `'&'`. -/
def isBackgroundJob (buffer : Buffer) : Bool :=
  (buffer.take MAX_BUFFER_SIZE).any (fun c => PIPE_BACKGROUND == c)

/-! ## `prepareArguments` -/

/-- An argument vector: the slots `argv[0], argv[1], ...` the code has written; a slot holds
a string or `NULL` (`none`), the end-of-arguments sentinel. -/
abbrev Argv := List (Option (List Nat))

/-- The variables of the tokenizing loop of `prepareArguments`: `argv[0 .. argc)`, the
characters `argument[0 .. j-1)` and `isLastSpace`. -/
structure ArgState where
  /-- The slots `argv[0 .. argc)`. -/
  argv : Argv
  /-- The characters stored so far in the current `argument`. -/
  argument : List Nat
  /-- The flag `isLastSpace`. -/
  isLastSpace : Bool
  deriving DecidableEq, Repr

/-- The loop `for (i = 0, ...; i <= (int)strlen(buffer); i++)` of `prepareArguments`,
following the characters (the blocks of `argv` and `argument` are in `argLoopHeap`).  The
first argument holds `buffer[i], buffer[i+1], ...`.  The result is the state at the exit
of the loop together with the byte `buffer[i]` that the test after the loop reads: the
`'&'` at which the loop broke, or else the byte after the terminating zero, the iteration
`i = strlen(buffer)` having skipped the zero byte as a non-graphic character. -/
def argLoop : List Nat → ArgState → ArgState × Nat
  | [], st => (st, TRAILING_ZERO)
  | c :: rest, st =>
    if c = TRAILING_ZERO then (st, rest.headD TRAILING_ZERO)
    else if isspace c then
      argLoop rest { argv := st.argv ++ [some st.argument], argument := [], isLastSpace := true }
    else if c = PIPE_BACKGROUND then ({ st with isLastSpace := false }, c)
    else if !isgraph c then argLoop rest st
    else argLoop rest { st with argument := st.argument ++ [c], isLastSpace := false }

/-- The function `prepareArguments`, following the characters: the strings and the `NULL`
that the code assigns to the slots of `argv`, in slot order, or `none` for the `NULL` it
returns on an invalid buffer, and the buffer it leaves behind.  Whether a slot lies inside
the block of `argv` is in `prepareArgumentsHeap`. -/
def prepareArguments (buffer : Buffer) : Option Argv × Buffer :=
  let buffer := trim buffer
  if !isBufferValid buffer then (none, buffer)
  else
    let r := argLoop buffer { argv := [], argument := [], isLastSpace := false }
    if !r.1.isLastSpace && r.2 != PIPE_BACKGROUND then
      (some (r.1.argv ++ [some r.1.argument, none]), buffer)
    else
      (some (r.1.argv ++ [none]), buffer)

/-! ## `getFilename` -/

/-- The two values `getFilename` accepts for its parameter; any other character makes the
source leave the program. -/
inductive Pipe where
  /-- The marker `PIPE_INPUT`. -/
  | input
  /-- The marker `PIPE_OUTPUT`. -/
  | output
  deriving DecidableEq, Repr

/-- The character of a marker. -/
def Pipe.char : Pipe → Nat
  | Pipe.input => PIPE_INPUT
  | Pipe.output => PIPE_OUTPUT

/-- The second loop of `getFilename`, from the byte after the marker, following the
characters (the block of `filename` and its terminating byte are in `scanNameHeap` and
`nameEndHeap`).  The first argument
holds `buffer[index], ...`; `filename` is `none` for `NULL`.  `filename[size] = buffer[index]`
appends, as `size` counts the characters stored so far.  The result is the file name and
the bytes `buffer[index], ...` after the loop, the characters of the name blanked. -/
def scanName : List Nat → Bool → Option (List Nat) → Option (List Nat) × List Nat
  | [], _, filename => (filename, [])
  | c :: rest, skipWhitespaces, filename =>
    if c = TRAILING_ZERO || c = NEW_LINE then (filename, c :: rest)
    else if isspace c then
      if skipWhitespaces then
        let r := scanName rest skipWhitespaces filename
        (r.1, c :: r.2)
      else (filename, c :: rest)
    else
      let r := scanName rest false (some (filename.getD [] ++ [c]))
      (r.1, BLANK :: r.2)

/-- The first loop of `getFilename`, looking for the marker, followed by the second one.
The result is the file name (`none` for `NULL`) and the buffer left behind. -/
def getFilenameFrom (pipe : Nat) : List Nat → Option (List Nat) × List Nat
  | [] => (none, [])
  | c :: rest =>
    if c = TRAILING_ZERO || c = NEW_LINE then (none, c :: rest)
    else if c = pipe then
      let r := scanName rest true none
      (r.1, BLANK :: r.2)
    else
      let r := getFilenameFrom pipe rest
      (r.1, c :: r.2)

/-- The function `getFilename`. -/
def getFilename (pipe : Pipe) (buffer : Buffer) : Option (List Nat) × Buffer :=
  getFilenameFrom pipe.char buffer

/-! ## The descriptor table of a child process: `dump` and `suck` -/

/-- What an open file descriptor refers to. -/
inductive File where
  /-- A stream inherited from the shell. -/
  | inherited (stream : Nat)
  /-- A file opened by name. -/
  | named (name : List Nat)
  deriving DecidableEq, Repr

/-- The descriptor table of a process: entry `fd` is `none` when descriptor `fd` is closed. -/
abbrev FdTable := List (Option File)

/-- The constant `STDIN_FILENO` of `<unistd.h>`. -/
abbrev STDIN_FILENO : Int := 0

/-- The constant `STDOUT_FILENO` of `<unistd.h>`. -/
abbrev STDOUT_FILENO : Int := 1

/-- What descriptor `fd` refers to, `none` when it is negative or closed. -/
def fdLookup (fds : FdTable) (fd : Int) : Option File :=
  if fd < 0 then none else (fds.get? fd.toNat).join

/-- The kernel gives a new descriptor the lowest number that is not in use. -/
def allocFd (fds : FdTable) (f : File) : FdTable × Int :=
  let k := fds.findIdx (fun e => e.isNone)
  if k < fds.length then (fds.set k (some f), (k : Int)) else (fds ++ [some f], (fds.length : Int))

/-- The call `open(filename, ...)`: a new descriptor, or `-1` when the file cannot be opened. -/
def openFile (canOpen : List Nat → Bool) (filename : List Nat) (fds : FdTable) : FdTable × Int :=
  if canOpen filename then allocFd fds (File.named filename) else (fds, -1)

/-- The call `close(fd)`: it fails and changes nothing on a descriptor that is not open. -/
def closeFd (fds : FdTable) (fd : Int) : FdTable :=
  if fd < 0 then fds else fds.set fd.toNat none

/-- The call `dup(fd)`: the lowest unused descriptor now refers to what `fd` refers to; it
fails and changes nothing when `fd` is not open. -/
def dupFd (fds : FdTable) (fd : Int) : FdTable :=
  match fdLookup fds fd with
  | none => fds
  | some f => (allocFd fds f).1

/-- The messages the program passes to `perror`. -/
inductive Report where
  /-- In `prepareArguments`: arguments are not valid. -/
  | invalidArguments
  /-- In `run`: input command exceeds 512 characters. -/
  | inputTooLong
  /-- In `startJob`: could not fork a new process. -/
  | forkFailed
  /-- In `startJob`: unexpected error in waiting for the process. -/
  | waitFailed
  /-- In `dump`: cannot open the output file. -/
  | cantOpenOutput
  /-- In `suck`: cannot open the input file. -/
  | cantOpenInput
  deriving DecidableEq, Repr

/-- The function `dump`, run in the child: the descriptor table it leaves and what it
reports.  `canOpen` tells which files `open` succeeds on. -/
def dump (canOpen : List Nat → Bool) (filename : Option (List Nat)) (fds : FdTable) :
    FdTable × List Report :=
  match filename with
  | none => (fds, [])
  | some name =>
    let o := openFile canOpen name fds
    let reports := if o.2 < 0 then [Report.cantOpenOutput] else []
    let fds := closeFd o.1 STDOUT_FILENO
    let fds := dupFd fds o.2
    let fds := closeFd fds o.2
    (fds, reports)

/-- The function `suck`, run in the child. -/
def suck (canOpen : List Nat → Bool) (filename : Option (List Nat)) (fds : FdTable) :
    FdTable × List Report :=
  match filename with
  | none => (fds, [])
  | some name =>
    let o := openFile canOpen name fds
    let reports := if o.2 < 0 then [Report.cantOpenInput] else []
    let fds := closeFd o.1 STDIN_FILENO
    let fds := dupFd fds o.2
    let fds := closeFd fds o.2
    (fds, reports)

/-! ## Signal handlers -/

/-- The signals the shell installs handlers for. -/
inductive Signal where
  /-- The interrupt signal. -/
  | SIGINT
  /-- The child-termination signal. -/
  | SIGCHLD
  deriving DecidableEq, Repr

/-- The disposition of a signal: the default action or one of the three handlers of the
source. -/
inductive Handler where
  /-- The default action, in force before any `sigaction`. -/
  | SIG_DFL
  /-- The function `handler`. -/
  | handler
  /-- The function `killHandler`. -/
  | killHandler
  /-- The function `childHandler`. -/
  | childHandler
  deriving DecidableEq, Repr

/-- The string `PROMPT`. -/
def PROMPT : List Nat := [36, 32]

/-- The string `NEW_LINE_WITH_PROMPT`. -/
def NEW_LINE_WITH_PROMPT : List Nat := [10, 36, 32]

/-- The string `NEW_LINE_AS_STRING`. -/
def NEW_LINE_AS_STRING : List Nat := [10]

/-- The function `handler`: the text it flushes. -/
def handler (sig : Signal) : List Nat :=
  if Signal.SIGINT = sig then NEW_LINE_WITH_PROMPT else []

/-- The function `killHandler`: the text it flushes, `killResult` being what
`kill(childPid, SIGINT)` returns. -/
def killHandler (sig : Signal) (killResult : Int) : List Nat :=
  if Signal.SIGINT = sig then
    if killResult = 0 then NEW_LINE_AS_STRING else NEW_LINE_WITH_PROMPT
  else []

/-! ## The state of the shell process -/

/-- A child process created by `fork`, by what it goes on to do: the files it passes to
`dump` and `suck`, whether it detaches, and the vector it passes to `execvp`. -/
structure Job where
  /-- The argument of `dump`. -/
  outputFilename : Option (List Nat)
  /-- The argument of `suck`. -/
  inputFilename : Option (List Nat)
  /-- The value of `isBackgroundJob()` in the child. -/
  background : Bool
  /-- The vector passed to `execvp`. -/
  args : Argv
  deriving DecidableEq, Repr

/-- The globals of the program, the signal dispositions of the shell process, and a record
of what it has done: the children it forked, the `SIGINT` disposition in force during each
`wait`, and its calls of `perror`. -/
structure State where
  /-- The global `buffer`. -/
  buffer : Buffer
  /-- The global `isFinished`. -/
  isFinished : Bool
  /-- The global `isProcessRunning`. -/
  isProcessRunning : Bool
  /-- The global `isInputTooLong`. -/
  isInputTooLong : Bool
  /-- The global `childPid`. -/
  childPid : Int
  /-- The disposition of `SIGINT`. -/
  sigint : Handler
  /-- The disposition of `SIGCHLD`. -/
  sigchld : Handler
  /-- The children forked so far, oldest first. -/
  jobs : List Job
  /-- For each `wait` so far, the disposition of `SIGINT` while the shell was blocked in it. -/
  waits : List Handler
  /-- The calls of `perror` so far. -/
  reports : List Report
  deriving DecidableEq, Repr

/-- What the operating system answers during one cycle: the value `fork` returns in the
shell and the value `wait` returns. -/
structure Env where
  /-- The value of `fork()` in the parent: the pid of the child, or negative. -/
  fork : Int
  /-- The value of `wait(&status)`. -/
  wait : Int
  deriving DecidableEq, Repr

/-- The function `initSigAction`: `sigaction(signal, &sigset, NULL)` with `handler` as
`sa_handler`. -/
def initSigAction (signal : Signal) (h : Handler) (s : State) : State :=
  match signal with
  | Signal.SIGINT => { s with sigint := h }
  | Signal.SIGCHLD => { s with sigchld := h }

/-- The globals as initialised, before `main` runs. -/
def initial : State :=
  { buffer := memset, isFinished := false, isProcessRunning := false, isInputTooLong := false,
    childPid := 0, sigint := Handler.SIG_DFL, sigchld := Handler.SIG_DFL,
    jobs := [], waits := [], reports := [] }

/-- The state in which `main` starts the two threads: `initSigAction(sigset, SIGINT, handler)`
has run. -/
def main : State := initSigAction Signal.SIGINT Handler.handler initial

/-! ## The Reader: one pass of the loop of `simulateShell` -/

/-- The call `read(fileno(stdin), &buffer, MAX_BUFFER_SIZE)` that delivers the bytes `chunk`:
they are stored from `buffer[0]` on. -/
def readInto (buffer : Buffer) (chunk : List Nat) : Buffer := memcpy buffer chunk

/-- The loop `while (true)` of `simulateShell`.  The input stream is the list of the chunks
the successive calls of `read` deliver, each of `1` to `MAX_BUFFER_SIZE` bytes.  The result
is `none` when the stream ends before the loop does, or when `read` delivers no byte (the
source then tests `buffer[-1]`).  Otherwise it is the buffer, `bufferSize`, `isInputTooLong`
and the rest of the stream. -/
def readLoop : List (List Nat) → Buffer → Nat → Bool →
    Option (Buffer × Nat × Bool × List (List Nat))
  | [], _, _, _ => none
  | chunk :: rest, buffer, bufferSize, isInputTooLong =>
    if chunk.length = 0 ∨ MAX_BUFFER_SIZE < chunk.length then none
    else
      let tmpBufferSize := chunk.length
      let buffer := readInto buffer chunk
      let bufferSize := bufferSize + tmpBufferSize
      let isInputTooLong := if bufferSize > MAX_LINE_SIZE then true else isInputTooLong
      if buffer.getD (tmpBufferSize - 1) 0 = NEW_LINE then
        some (buffer, bufferSize, isInputTooLong, rest)
      else readLoop rest buffer bufferSize isInputTooLong

/-- One pass of the loop of `simulateShell`, up to the hand-over `isProcessRunning = true`:
the new state and the rest of the input stream. -/
def simulateShell (input : List (List Nat)) (s : State) : Option (State × List (List Nat)) :=
  match readLoop input memset 0 false with
  | none => none
  | some (buffer, bufferSize, isInputTooLong, rest) =>
    let buffer := if !isInputTooLong then buffer.set (bufferSize - 1) TRAILING_ZERO else buffer
    some ({ s with buffer := buffer, isInputTooLong := isInputTooLong, isProcessRunning := true },
      rest)

/-! ## The Executor: `startJob` and one pass of the loop of `run` -/

/-- The values of the first three statements of `startJob`: the two file names, the
argument vector (`none` for `NULL`) and the buffer they leave behind. -/
structure Parsed where
  /-- The value of `getFilename(PIPE_OUTPUT)`. -/
  outputFilename : Option (List Nat)
  /-- The value of `getFilename(PIPE_INPUT)`. -/
  inputFilename : Option (List Nat)
  /-- The value of `prepareArguments()`. -/
  args : Option Argv
  /-- The buffer after the three calls. -/
  buffer : Buffer
  deriving DecidableEq, Repr

/-- The first three statements of `startJob`: `getFilename(PIPE_OUTPUT)`, then
`getFilename(PIPE_INPUT)`, then `prepareArguments()`, each on the buffer the previous one
left. -/
def startJobParse (buffer : Buffer) : Parsed :=
  let o := getFilename Pipe.output buffer
  let i := getFilename Pipe.input o.2
  let a := prepareArguments i.2
  { outputFilename := o.1, inputFilename := i.1, args := a.1, buffer := a.2 }

/-- The branch `childPid > 0` of `startJob`: the shell after a successful `fork`. -/
def startJobParent (env : Env) (s : State) : State :=
  if isBackgroundJob s.buffer then
    initSigAction Signal.SIGCHLD Handler.childHandler s
  else
    let s := initSigAction Signal.SIGINT Handler.killHandler s
    let s := { s with waits := s.waits ++ [s.sigint] }
    if env.wait = -1 then { s with reports := s.reports ++ [Report.waitFailed] } else s

/-- The function `startJob`, in the shell process.  The child that `fork` creates is
recorded in `jobs`; the `perror` of `prepareArguments` on an invalid buffer is recorded here.
The value `0` of `fork` is the one the child sees, so the last branch is not reached in the
shell. -/
def startJob (env : Env) (s : State) : State :=
  let p := startJobParse s.buffer
  let s := { s with buffer := p.buffer }
  match p.args with
  | none => { s with reports := s.reports ++ [Report.invalidArguments] }
  | some args =>
    let s := { s with childPid := env.fork }
    if env.fork > 0 then
      startJobParent env
        { s with jobs := s.jobs ++ [{ outputFilename := p.outputFilename,
                                      inputFilename := p.inputFilename,
                                      background := isBackgroundJob s.buffer,
                                      args := args }] }
    else if env.fork < 0 then { s with reports := s.reports ++ [Report.forkFailed] }
    else s

/-- The test for the exit command in `run`. -/
def isExit (buffer : Buffer) : Bool :=
  buffer.getD 0 0 == 101 && buffer.getD 1 0 == 120 && buffer.getD 2 0 == 105 &&
    buffer.getD 3 0 == 116 &&
    (buffer.getD 4 0 == TRAILING_ZERO || isspace (buffer.getD 4 0))

/-- One pass of the loop of `run`, from the point where the Reader has handed a line over. -/
def run (env : Env) (s : State) : State :=
  let s :=
    if !s.isInputTooLong then
      if !isExit s.buffer then
        if strlen s.buffer > 0 then startJob env s else s
      else { s with isFinished := true }
    else { s with reports := s.reports ++ [Report.inputTooLong] }
  { s with isProcessRunning := false }

/-! ## The heap -/

/-- The `sizeof(char*)` of the source, on a target whose pointers have eight bytes. -/
abbrev SIZEOF_POINTER : Nat := 8

/-- A block of the heap, one cell per element, index `0` first.  A cell is `none` as long as
the program has stored nothing into it.  In a block of characters a cell is a byte; in the
block of `argv` a cell is a `char*`, so that a request of `sizeof(char*) * n` bytes is a
request of `n` cells. -/
abbrev Block (α : Type) := List (Option α)

/-- An access outside the block it goes through. -/
inductive Fault where
  /-- The access to the cell `index` of a block of `capacity` cells. -/
  | outOfBounds (index capacity : Nat)
  deriving DecidableEq, Repr

/-- Two results of an operation on the heap can be compared. -/
instance instDecidableEqExcept {ε α : Type} [DecidableEq ε] [DecidableEq α] :
    DecidableEq (Except ε α)
  | Except.ok a, Except.ok b =>
    if h : a = b then isTrue (congrArg Except.ok h) else isFalse (fun e => h (Except.ok.inj e))
  | Except.error a, Except.error b =>
    if h : a = b then isTrue (congrArg Except.error h)
    else isFalse (fun e => h (Except.error.inj e))
  | Except.ok _, Except.error _ => isFalse (fun e => Except.noConfusion e)
  | Except.error _, Except.ok _ => isFalse (fun e => Except.noConfusion e)

/-- The block `malloc` returns for a request of `size` cells: nothing is stored in it. -/
def malloc {α : Type} (size : Nat) : Block α := List.replicate size none

/-- The block `realloc` returns for a request of `size` cells: the cells of the old block
up to `size`, followed by cells in which nothing is stored. -/
def realloc {α : Type} (block : Block α) (size : Nat) : Block α :=
  block.take size ++ List.replicate (size - block.length) none

/-- The assignment `block[index] = value`. -/
def store {α : Type} (block : Block α) (index : Nat) (value : α) : Except Fault (Block α) :=
  if index < block.length then Except.ok (block.set index (some value))
  else Except.error (Fault.outOfBounds index block.length)

/-- The byte read from the cell `index` of a block of characters: the byte stored there or,
when nothing was stored, the byte `heap[index]` the allocator left there.  The list `heap`
gives the bytes a block holds when the allocator hands it out, zero bytes after its end. -/
def load (heap : List Nat) (index : Nat) (cell : Option Nat) : Nat :=
  cell.getD (heap.getD index TRAILING_ZERO)

/-- The C string that starts at the cell `index` of a block of `capacity` cells, the third
argument holding the cells from `index` on: the bytes before the first zero byte.  Without
a zero byte the read leaves the block. -/
def stringFrom (heap : List Nat) (capacity : Nat) : List (Option Nat) → Nat →
    Except Fault (List Nat)
  | [], index => Except.error (Fault.outOfBounds index capacity)
  | cell :: rest, index =>
    if load heap index cell = TRAILING_ZERO then Except.ok []
    else
      match stringFrom heap capacity rest (index + 1) with
      | Except.error e => Except.error e
      | Except.ok s => Except.ok (load heap index cell :: s)

/-- The C string a block of characters holds, as `strlen`, `open` and `execvp` read it. -/
def string (heap : List Nat) (block : Block Nat) : Except Fault (List Nat) :=
  stringFrom heap block.length block 0

/-! ## `trim` on the heap -/

/-- The loop of `trim` with the block of `trimmedString` and the counter `j`: a character
that is kept goes through `trimmedString = realloc(trimmedString, sizeof(char*) * (j + 1));
trimmedString[j] = buffer[i]; j++`.  Control flows as in `trimLoop`. -/
def trimLoopHeap : List Nat → Nat → Bool → Block Nat → Nat → Except Fault (Block Nat)
  | [], _, _, trimmedString, _ => Except.ok trimmedString
  | c :: rest, i, isLastWhiteSpace, trimmedString, j =>
    if c = TRAILING_ZERO then Except.ok trimmedString
    else if isspace c then
      if isLastWhiteSpace then trimLoopHeap rest (i + 1) true trimmedString j
      else if i = 0 then trimLoopHeap rest (i + 1) true trimmedString j
      else
        match store (realloc trimmedString (SIZEOF_POINTER * (j + 1))) j c with
        | Except.error e => Except.error e
        | Except.ok trimmedString => trimLoopHeap rest (i + 1) true trimmedString (j + 1)
    else
      match store (realloc trimmedString (SIZEOF_POINTER * (j + 1))) j c with
      | Except.error e => Except.error e
      | Except.ok trimmedString => trimLoopHeap rest (i + 1) false trimmedString (j + 1)

/-- The function `trim` on the heap: `trimmedString = malloc(sizeof(char*))`, the loop, then
`memset(buffer, TRAILING_ZERO, MAX_BUFFER_SIZE)` and
`memcpy(buffer, trimmedString, strlen(trimmedString))`, where `strlen` reads the block up to
the first zero byte it meets; a copy of more than `MAX_BUFFER_SIZE` bytes leaves the
buffer. -/
def trimHeap (heap : List Nat) (buffer : Buffer) : Except Fault Buffer :=
  match trimLoopHeap buffer 0 false (malloc SIZEOF_POINTER) 0 with
  | Except.error e => Except.error e
  | Except.ok trimmedString =>
    match string heap trimmedString with
    | Except.error e => Except.error e
    | Except.ok s =>
      if s.length ≤ MAX_BUFFER_SIZE then Except.ok (memcpy memset s)
      else Except.error (Fault.outOfBounds MAX_BUFFER_SIZE MAX_BUFFER_SIZE)

/-! ## `prepareArguments` on the heap -/

/-- A value of type `char*` stored in a slot of `argv`. -/
inductive Pointer where
  /-- The pointer `NULL`. -/
  | null
  /-- A pointer to a block of characters, given with the block as it is when the pointer is
  stored (the code does not write to the block afterwards). -/
  | to (block : Block Nat)
  deriving DecidableEq, Repr

/-- The variables of the tokenizing loop of `prepareArguments`, on the heap. -/
structure ArgHeap where
  /-- The block of `argv`, one cell per `char*`. -/
  argv : Block Pointer
  /-- The counter `argc`. -/
  argc : Nat
  /-- The block of the current `argument`. -/
  argument : Block Nat
  /-- The counter `j`. -/
  j : Nat
  /-- The flag `isLastSpace`. -/
  isLastSpace : Bool
  deriving DecidableEq, Repr

/-- The variables when the loop of `prepareArguments` starts: `argv = malloc(sizeof(char*))`,
a block of one slot, `argument = malloc(sizeof(char*))`, `j = 1`, `argc = 0`. -/
def argHeapStart : ArgHeap :=
  { argv := malloc 1, argc := 0, argument := malloc SIZEOF_POINTER, j := 1,
    isLastSpace := false }

/-- The tokenizing loop of `prepareArguments` on the heap.  Control flows as in `argLoop`.
At whitespace: `if (argc > 0) argv = realloc(argv, sizeof(char*) * (argc + 1));
argv[argc] = argument; argument = malloc(sizeof(char*)); argc++; j = 1`.  At a printable
character: `argument[j - 1] = buffer[i];
argument = realloc(argument, sizeof(char*) * (j + 1)); j++`. -/
def argLoopHeap : List Nat → ArgHeap → Except Fault (ArgHeap × Nat)
  | [], st => Except.ok (st, TRAILING_ZERO)
  | c :: rest, st =>
    if c = TRAILING_ZERO then Except.ok (st, rest.headD TRAILING_ZERO)
    else if isspace c then
      match store (if 0 < st.argc then realloc st.argv (st.argc + 1) else st.argv) st.argc
          (Pointer.to st.argument) with
      | Except.error e => Except.error e
      | Except.ok argv =>
        argLoopHeap rest { argv := argv, argc := st.argc + 1, argument := malloc SIZEOF_POINTER,
                           j := 1, isLastSpace := true }
    else if c = PIPE_BACKGROUND then Except.ok ({ st with isLastSpace := false }, c)
    else if !isgraph c then argLoopHeap rest st
    else
      match store st.argument (st.j - 1) c with
      | Except.error e => Except.error e
      | Except.ok argument =>
        argLoopHeap rest { st with argument := realloc argument (SIZEOF_POINTER * (st.j + 1)),
                                   j := st.j + 1, isLastSpace := false }

/-- The statements after the loop of `prepareArguments`, `c` being the byte `buffer[i]`:
either `argv[argc] = argument; argv = realloc(argv, sizeof(char*) * (argc + 1));
argv[argc + 1] = NULL`, or `argv[argc] = NULL`. -/
def argEndHeap (st : ArgHeap) (c : Nat) : Except Fault (Block Pointer) :=
  if !st.isLastSpace && c != PIPE_BACKGROUND then
    match store st.argv st.argc (Pointer.to st.argument) with
    | Except.error e => Except.error e
    | Except.ok argv => store (realloc argv (st.argc + 1)) (st.argc + 1) Pointer.null
  else store st.argv st.argc Pointer.null

/-- The function `prepareArguments` on the heap: the block of `argv` it returns, or `none`
for the `NULL` it returns on an invalid buffer, and the buffer it leaves behind. -/
def prepareArgumentsHeap (heap : List Nat) (buffer : Buffer) :
    Except Fault (Option (Block Pointer) × Buffer) :=
  match trimHeap heap buffer with
  | Except.error e => Except.error e
  | Except.ok buffer =>
    if !isBufferValid buffer then Except.ok (none, buffer)
    else
      match argLoopHeap buffer argHeapStart with
      | Except.error e => Except.error e
      | Except.ok r =>
        match argEndHeap r.1 r.2 with
        | Except.error e => Except.error e
        | Except.ok argv => Except.ok (some argv, buffer)

/-! ## `getFilename` on the heap -/

/-- The second loop of `getFilename` with the block of `filename` and the counter `size`.
Control flows as in `scanName`.  At a character of the name: `filename = malloc(sizeof(char*))`
for the first one and `filename = realloc(filename, sizeof(char*) * (size + 1))` for the
others, then `filename[size] = buffer[index]`, and the `size++` of the loop.  At whitespace
before the name, `size--` and the `size++` of the loop leave `size` as it is.  The result is
`filename`, `size` and the bytes `buffer[index], ...` after the loop. -/
def scanNameHeap : List Nat → Bool → Option (Block Nat) → Nat →
    Except Fault ((Option (Block Nat) × Nat) × List Nat)
  | [], _, filename, size => Except.ok ((filename, size), [])
  | c :: rest, skipWhitespaces, filename, size =>
    if c = TRAILING_ZERO || c = NEW_LINE then Except.ok ((filename, size), c :: rest)
    else if isspace c then
      if skipWhitespaces then
        match scanNameHeap rest skipWhitespaces filename size with
        | Except.error e => Except.error e
        | Except.ok r => Except.ok (r.1, c :: r.2)
      else Except.ok ((filename, size), c :: rest)
    else
      match store (if skipWhitespaces then malloc SIZEOF_POINTER
          else realloc (filename.getD []) (SIZEOF_POINTER * (size + 1))) size c with
      | Except.error e => Except.error e
      | Except.ok filename =>
        match scanNameHeap rest false (some filename) (size + 1) with
        | Except.error e => Except.error e
        | Except.ok r => Except.ok (r.1, BLANK :: r.2)

/-- The statements after the second loop of `getFilename`: `if (filename != NULL)
{ filename = realloc(filename, sizeof(char*) * (size + 1));
filename[size + 1] = TRAILING_ZERO; }`. -/
def nameEndHeap (filename : Option (Block Nat)) (size : Nat) :
    Except Fault (Option (Block Nat)) :=
  match filename with
  | none => Except.ok none
  | some filename =>
    match store (realloc filename (SIZEOF_POINTER * (size + 1))) (size + 1) TRAILING_ZERO with
    | Except.error e => Except.error e
    | Except.ok filename => Except.ok (some filename)

/-- The first loop of `getFilename`, looking for the marker, then the second loop and the
statements after it.  The result is the block of the file name (`none` for `NULL`) and the
buffer left behind. -/
def getFilenameHeapFrom (pipe : Nat) : List Nat → Except Fault (Option (Block Nat) × List Nat)
  | [] => Except.ok (none, [])
  | c :: rest =>
    if c = TRAILING_ZERO || c = NEW_LINE then Except.ok (none, c :: rest)
    else if c = pipe then
      match scanNameHeap rest true none 0 with
      | Except.error e => Except.error e
      | Except.ok r =>
        match nameEndHeap r.1.1 r.1.2 with
        | Except.error e => Except.error e
        | Except.ok filename => Except.ok (filename, BLANK :: r.2)
    else
      match getFilenameHeapFrom pipe rest with
      | Except.error e => Except.error e
      | Except.ok r => Except.ok (r.1, c :: r.2)

/-- The function `getFilename` on the heap. -/
def getFilenameHeap (pipe : Pipe) (buffer : Buffer) :
    Except Fault (Option (Block Nat) × Buffer) :=
  getFilenameHeapFrom pipe.char buffer

/-! ## Vocabulary of the specification -/

/-- The whitespace-delimited tokens of a text, in order: the text is cut at every whitespace
character and the empty pieces are dropped. -/
def tokens (text : List Nat) : List (List Nat) :=
  (text.splitOnP isspace).filter (fun t => !t.isEmpty)

/-- The first whitespace-delimited token of a line, if it has one. -/
def firstToken (line : List Nat) : Option (List Nat) := (tokens line).head?

/-- The literal `exit`. -/
def EXIT : List Nat := [101, 120, 105, 116]

/-- The whitespace-delimited token that follows the first occurrence of `marker` in a line,
if there is one. -/
def tokenAfter (marker : Nat) (line : List Nat) : Option (List Nat) :=
  firstToken ((line.dropWhile (fun c => c != marker)).drop 1)

/-! ## Inputs of the theorems -/

/-- The bytes of a text given as a string literal. -/
def str (text : String) : List Nat := text.toList.map Char.toNat

/-- The buffer that holds `line` from its first byte on and zero bytes after it: what the
Reader hands over for a line that arrived in one `read` (see `simulateShell_line`). -/
def lineBuffer (line : List Nat) : Buffer := memcpy memset line

/-- A block of `size` cells in which the program has stored the characters of `text` from
the cell `0` on, and nothing else. -/
def written (text : List Nat) (size : Nat) : Block Nat :=
  text.map some ++ List.replicate (size - text.length) none

/-- Memory that was in use before: a block holds the byte `[` in each of its first eight
cells when the allocator hands it out, and zero bytes after them. -/
def recycled : List Nat := List.replicate 8 91

/-- The block `getFilename` builds for the name `name`: the characters of the name from the
cell `0` on, a cell in which nothing is stored, then the terminating byte. -/
def nameBlock (name : List Nat) : Block Nat :=
  (written name (SIZEOF_POINTER * (name.length + 1))).set (name.length + 1) (some TRAILING_ZERO)

/-- The block the loop of `prepareArguments` builds for the characters of an argument. -/
def argumentBlock (argument : List Nat) : Block Nat :=
  written argument (SIZEOF_POINTER * (argument.length + 1))

/-- The variables of the loop of `prepareArguments` on the heap, given the strings assigned
to `argv` so far and the characters stored in the current `argument`. -/
def ArgState.onHeap (st : ArgState) : ArgHeap :=
  { argv := if st.argv = [] then malloc 1
      else st.argv.map (fun a => some (match a with
        | some t => Pointer.to (argumentBlock t)
        | none => Pointer.null)),
    argc := st.argv.length,
    argument := argumentBlock st.argument,
    j := st.argument.length + 1,
    isLastSpace := st.isLastSpace }

/-- The three standard streams a child inherits from the shell. -/
def stdStreams : FdTable :=
  [some (File.inherited 0), some (File.inherited 1), some (File.inherited 2)]

/-- A stretch of text between the markers: printable characters and whitespace, without
newline and without any of the markers `<`, `>`, `&`. -/
def plainText (t : List Nat) : Bool :=
  t.all (fun c => (isspace c || isgraph c) && c != NEW_LINE && c != PIPE_INPUT &&
    c != PIPE_OUTPUT && c != PIPE_BACKGROUND)

/-- Whitespace of a line: whitespace characters other than the newline. -/
def blankText (t : List Nat) : Bool :=
  t.all (fun c => isspace c && c != NEW_LINE)

/-- A file name token: not empty, without whitespace, zero byte or marker. -/
def nameText (t : List Nat) : Bool :=
  !t.isEmpty && t.all (fun c => !isspace c && c != TRAILING_ZERO && c != PIPE_INPUT &&
    c != PIPE_OUTPUT && c != PIPE_BACKGROUND)

/-- The text is empty or starts with whitespace, so that a token before it ends there. -/
def endsToken (t : List Nat) : Bool :=
  match t with
  | [] => true
  | c :: _ => isspace c

/-- The line made of the text `a`, a first marker followed by the whitespace `s1` and the
file name `f1`, the text `b`, the second marker followed by the whitespace `s2` and the file
name `f2`, and the text `c`. -/
def redirectionLine (first second : Pipe) (a s1 f1 b s2 f2 c : List Nat) : List Nat :=
  a ++ first.char :: (s1 ++ (f1 ++ (b ++ second.char :: (s2 ++ (f2 ++ c)))))

/-- The tokens of `cur ++ text` when `cur`, the characters of a token already begun, holds no
whitespace. -/
def tokensFrom (cur : List Nat) (text : List Nat) : List (List Nat) :=
  ((text.splitOnP isspace).modifyHead (fun t => cur ++ t)).filter (fun t => !t.isEmpty)

/-- The scan of a file name stops at the front of `rest`: the buffer ends there, or the next
byte is the zero byte or whitespace. -/
def stopsScan (rest : List Nat) : Prop :=
  rest.headD 0 = 0 ∨ isspace (rest.headD 0) = true

/-! ## Lists and the buffer -/

/-- Reading the byte that follows a prefix. -/
theorem getD_append_cons (l r : List Nat) (x d : Nat) : (l ++ x :: r).getD l.length d = x := by
  induction l with
  | nil => rfl
  | cons a l ih =>
    show (a :: (l ++ x :: r)).getD (l.length + 1) d = x
    rw [List.getD_cons_succ]; exact ih

/-- Writing the byte that follows a prefix. -/
theorem set_append_cons (l r : List Nat) (x y : Nat) :
    (l ++ x :: r).set l.length y = l ++ y :: r := by
  induction l with
  | nil => rfl
  | cons a l ih => simp

/-- The buffer that holds a line: the line and zero bytes up to `MAX_BUFFER_SIZE`. -/
theorem lineBuffer_eq (line : List Nat) :
    lineBuffer line = line ++ List.replicate (513 - line.length) 0 := by
  simp [lineBuffer, memcpy, memset]

/-- A line of at most 512 bytes is followed in its buffer by a zero byte at least. -/
theorem lineBuffer_cons_zero (line : List Nat) (hlen : line.length < 513) :
    lineBuffer line = line ++ 0 :: List.replicate (512 - line.length) 0 := by
  rw [lineBuffer_eq]
  have h : 513 - line.length = (512 - line.length) + 1 := by omega
  rw [h, List.replicate_succ]

/-- A string of at most 512 characters copied into the cleared buffer is followed by a
zero byte. -/
theorem memcpy_memset (t : List Nat) (ht : t.length < 513) :
    memcpy memset t = t ++ 0 :: List.replicate (512 - t.length) 0 := by
  simp only [memcpy, memset, MAX_BUFFER_SIZE, TRAILING_ZERO, List.drop_replicate]
  have h : 513 - t.length = (512 - t.length) + 1 := by omega
  rw [h, List.replicate_succ]

/-- The buffer that holds a non-empty line without zero byte has a positive `strlen`. -/
theorem strlen_lineBuffer_pos (line : List Nat) (h0 : 0 ∉ line) (hne : line ≠ []) :
    strlen (lineBuffer line) > 0 := by
  obtain ⟨x, l, rfl⟩ := List.exists_cons_of_ne_nil hne
  have hx : (x != TRAILING_ZERO) = true := by
    simp only [bne_iff_ne, ne_eq]
    intro h; apply h0; simp [h]
  simp [lineBuffer, memcpy, strlen, List.takeWhile, hx]

/-! ## The character classes -/

/-- A whitespace character is not the zero byte, not `&` and not printable. -/
theorem isspace_ne (c : Nat) (h : isspace c = true) : c ≠ 0 ∧ c ≠ 38 ∧ isgraph c = false := by
  simp only [isspace, isgraph, Bool.or_eq_true, beq_iff_eq, Bool.and_eq_true, decide_eq_true_eq,
    Bool.and_eq_false_iff, decide_eq_false_iff_not] at *
  omega

/-- A printable character is not the zero byte and not whitespace. -/
theorem isgraph_ne (c : Nat) (h : isgraph c = true) : c ≠ 0 ∧ isspace c = false := by
  simp only [isspace, isgraph, Bool.or_eq_false_iff, beq_eq_false_iff_ne, Bool.and_eq_true,
    decide_eq_true_eq,
    Bool.and_eq_false_iff, decide_eq_false_iff_not] at *
  omega

/-- What `plainText` says of each character. -/
theorem plainText_spec (t : List Nat) (h : plainText t = true) :
    ∀ c ∈ t, (isspace c = true ∨ isgraph c = true) ∧ c ≠ 0 ∧ c ≠ 10 ∧ c ≠ 60 ∧ c ≠ 62 ∧
      c ≠ 38 := by
  intro c hc
  have := List.all_eq_true.1 h c hc
  simp only [Bool.and_eq_true, Bool.or_eq_true, bne_iff_ne, ne_eq] at this
  obtain ⟨⟨⟨⟨h1, h2⟩, h3⟩, h4⟩, h5⟩ := this
  refine ⟨h1, ?_, h2, h3, h4, h5⟩
  rcases h1 with h1 | h1
  · exact (isspace_ne c h1).1
  · exact (isgraph_ne c h1).1

/-- What `blankText` says of each character. -/
theorem blankText_spec (t : List Nat) (h : blankText t = true) :
    ∀ c ∈ t, isspace c = true ∧ c ≠ 0 ∧ c ≠ 10 ∧ c ≠ 60 ∧ c ≠ 62 ∧ c ≠ 38 := by
  intro c hc
  have := List.all_eq_true.1 h c hc
  simp only [Bool.and_eq_true, bne_iff_ne, ne_eq] at this
  obtain ⟨h1, h2⟩ := this
  refine ⟨h1, (isspace_ne c h1).1, h2, ?_, ?_, (isspace_ne c h1).2.1⟩
  · intro e; rw [e] at h1; exact absurd h1 (by decide)
  · intro e; rw [e] at h1; exact absurd h1 (by decide)

/-- What `nameText` says of the name and of each character. -/
theorem nameText_spec (t : List Nat) (h : nameText t = true) :
    t ≠ [] ∧ ∀ c ∈ t, isspace c = false ∧ c ≠ 0 ∧ c ≠ 10 ∧ c ≠ 60 ∧ c ≠ 62 ∧ c ≠ 38 := by
  simp only [nameText, Bool.and_eq_true, Bool.not_eq_true', List.isEmpty_eq_false] at h
  refine ⟨by simpa using h.1, ?_⟩
  intro c hc
  have := List.all_eq_true.1 h.2 c hc
  simp only [Bool.and_eq_true, Bool.not_eq_true', bne_iff_ne, ne_eq] at this
  obtain ⟨⟨⟨⟨h1, h2⟩, h3⟩, h4⟩, h5⟩ := this
  refine ⟨h1, h2, ?_, h3, h4, h5⟩
  intro e; rw [e] at h1; exact absurd h1 (by decide)

/-! ## The Reader -/

/-- The buffer after a `read` that delivers a line with its newline. -/
theorem readInto_line (line : List Nat) (buffer : Buffer) :
    readInto buffer (line ++ [NEW_LINE]) =
      line ++ NEW_LINE :: buffer.drop (line.length + 1) := by
  simp [readInto, memcpy]

/-- A line of fewer than `MAX_LINE_SIZE` characters that arrives, with its newline, in one
`read` is handed over as `lineBuffer line`, not flagged. -/
theorem simulateShell_line (line : List Nat) (rest : List (List Nat)) (s : State)
    (hlen : line.length < MAX_LINE_SIZE) :
    simulateShell ((line ++ [NEW_LINE]) :: rest) s =
      some ({ s with buffer := lineBuffer line, isInputTooLong := false,
                     isProcessRunning := true }, rest) := by
  simp only [MAX_LINE_SIZE] at hlen
  have h1 : ¬ ((line ++ [NEW_LINE]).length = 0 ∨
      MAX_BUFFER_SIZE < (line ++ [NEW_LINE]).length) := by
    simp only [MAX_BUFFER_SIZE, List.length_append, List.length_singleton]; omega
  have h2 : ¬ (0 + (line ++ [NEW_LINE]).length > MAX_LINE_SIZE) := by
    simp only [MAX_LINE_SIZE, List.length_append, List.length_singleton]; omega
  have h5 : (line ++ [NEW_LINE]).length - 1 = line.length := by simp
  have h6 : 0 + (line ++ [NEW_LINE]).length - 1 = line.length := by simp
  have h7 : List.drop (line.length + 1) memset = List.replicate (512 - line.length) 0 := by
    simp only [memset, MAX_BUFFER_SIZE, List.drop_replicate]
    congr 1; omega
  simp only [simulateShell, readLoop, if_neg h1, if_neg h2, h5, h6, readInto_line,
    getD_append_cons, if_true, Bool.not_false, set_append_cons,
    lineBuffer_cons_zero line (by omega), h7]

/-- The byte `buffer[tmpBufferSize - 1]` after a `read` is the last byte it delivered. -/
theorem readInto_getD_last (buffer : Buffer) (c : List Nat) (hc : c ≠ []) :
    (readInto buffer c).getD (c.length - 1) 0 = c.getLast hc := by
  obtain ⟨l, x, rfl⟩ : ∃ l x, c = l ++ [x] :=
    ⟨c.dropLast, c.getLast hc, (List.dropLast_append_getLast hc).symm⟩
  simp only [readInto, memcpy, List.append_assoc, List.singleton_append, List.length_append,
    List.length_singleton, Nat.add_sub_cancel, getD_append_cons]
  simp

/-- Whatever the way a newline-terminated line is cut into reads, the loop of the Reader
ends at the newline, and the flag it leaves is set exactly when more than `MAX_LINE_SIZE`
bytes were read, the newline counted. -/
theorem readLoop_isInputTooLong (chunks : List (List Nat)) (last : List Nat)
    (rest : List (List Nat))
    (hchunks : ∀ c ∈ chunks, c.length ≤ MAX_BUFFER_SIZE ∧ ∃ h : c ≠ [], c.getLast h ≠ NEW_LINE)
    (hlast : last.length < MAX_BUFFER_SIZE) (buffer : Buffer) (bufferSize : Nat) (flag : Bool) :
    ∃ buffer',
      readLoop (chunks ++ (last ++ [NEW_LINE]) :: rest) buffer bufferSize flag =
        some (buffer', bufferSize + (chunks.map List.length).sum + (last.length + 1),
          flag || decide (MAX_LINE_SIZE <
            bufferSize + (chunks.map List.length).sum + (last.length + 1)),
          rest) := by
  induction chunks generalizing buffer bufferSize flag with
  | nil =>
    have h1 : ¬ ((last ++ [NEW_LINE]).length = 0 ∨
        MAX_BUFFER_SIZE < (last ++ [NEW_LINE]).length) := by
      simp only [MAX_BUFFER_SIZE, List.length_append, List.length_singleton] at *; omega
    have h5 : (last ++ [NEW_LINE]).length - 1 = last.length := by simp
    refine ⟨readInto buffer (last ++ [NEW_LINE]), ?_⟩
    simp only [List.nil_append, readLoop, if_neg h1, h5, readInto_line, getD_append_cons, if_true]
    by_cases hb : bufferSize + (last ++ [NEW_LINE]).length > MAX_LINE_SIZE
    · have hb' : MAX_LINE_SIZE < bufferSize + (last.length + 1) := by simpa using hb
      simp [hb, hb']
    · have hb' : ¬ MAX_LINE_SIZE < bufferSize + (last.length + 1) := by simpa using hb
      simp [hb, hb']
  | cons c cs ih =>
    obtain ⟨hc2, hc1, hc3⟩ := hchunks c (List.mem_cons_self _ _)
    have h1 : ¬ (c.length = 0 ∨ MAX_BUFFER_SIZE < c.length) := by
      have : c.length ≠ 0 := by simpa using hc1
      omega
    have h3 : ¬ ((readInto buffer c).getD (c.length - 1) 0 = NEW_LINE) := by
      rw [readInto_getD_last buffer c hc1]; exact hc3
    obtain ⟨b', hb'⟩ := ih (fun x hx => hchunks x (List.mem_cons_of_mem _ hx))
      (readInto buffer c) (bufferSize + c.length)
      (if bufferSize + c.length > MAX_LINE_SIZE then true else flag)
    refine ⟨b', ?_⟩
    rw [List.cons_append]
    simp only [readLoop, if_neg h1, if_neg h3]
    rw [hb']
    simp only [List.map_cons, List.sum_cons, MAX_LINE_SIZE, Nat.add_assoc]
    by_cases hb : bufferSize + c.length > 512
    · have : 512 < bufferSize +
          (c.length + ((List.map List.length cs).sum + (last.length + 1))) := by omega
      simp [hb, this]
    · simp [hb]

/-- Whatever the way a newline-terminated line is cut into reads, the Reader flags it exactly
when its content, the newline not counted, has `MAX_LINE_SIZE` characters or more. -/
theorem simulateShell_isInputTooLong (chunks : List (List Nat)) (last : List Nat)
    (stream : List (List Nat))
    (hchunks : ∀ c ∈ chunks, c.length ≤ MAX_BUFFER_SIZE ∧ ∃ h : c ≠ [], c.getLast h ≠ NEW_LINE)
    (hlast : last.length < MAX_BUFFER_SIZE) (s : State) :
    ∃ s1, simulateShell (chunks ++ (last ++ [NEW_LINE]) :: stream) s = some (s1, stream) ∧
      (s1.isInputTooLong = true ↔
        MAX_LINE_SIZE ≤ (chunks.map List.length).sum + last.length) := by
  obtain ⟨b, hb⟩ := readLoop_isInputTooLong chunks last stream hchunks hlast memset 0 false
  simp only [simulateShell, hb]
  refine ⟨_, rfl, ?_⟩
  simp only [Bool.false_or, decide_eq_true_eq, MAX_LINE_SIZE]
  omega

/-! ## Tokens -/

/-- The tokens of a text, with no token begun. -/
theorem tokens_eq_tokensFrom (text : List Nat) : tokens text = tokensFrom [] text := by
  unfold tokens tokensFrom
  congr 1
  cases h : List.splitOnP isspace text <;> simp [List.modifyHead]

/-- At the end of the text the token begun, if any, is the last token. -/
theorem tokensFrom_nil (cur : List Nat) :
    tokensFrom cur [] = if cur = [] then [] else [cur] := by
  cases cur <;> simp [tokensFrom, List.modifyHead, List.filter]

/-- A whitespace character ends the token begun, if any. -/
theorem tokensFrom_cons_space (cur : List Nat) (c : Nat) (text : List Nat)
    (hc : isspace c = true) :
    tokensFrom cur (c :: text) = (if cur = [] then [] else [cur]) ++ tokens text := by
  rw [tokens_eq_tokensFrom]
  unfold tokensFrom
  rw [List.splitOnP_cons, if_pos hc]
  cases cur <;> cases h : List.splitOnP isspace text <;> simp [List.modifyHead, List.filter]

/-- A character that is not whitespace extends the token begun. -/
theorem tokensFrom_cons_char (cur : List Nat) (c : Nat) (text : List Nat)
    (hc : isspace c = false) :
    tokensFrom cur (c :: text) = tokensFrom (cur ++ [c]) text := by
  unfold tokensFrom
  rw [List.splitOnP_cons]
  simp only [hc, Bool.false_eq_true, if_false]
  cases h : List.splitOnP isspace text <;> simp [List.modifyHead]

/-- The empty text has no token. -/
theorem tokens_nil : tokens [] = [] := by
  rw [tokens_eq_tokensFrom, tokensFrom_nil]; rfl

/-- Whitespace at the front of a text does not change its tokens. -/
theorem tokens_cons_space (c : Nat) (text : List Nat) (hc : isspace c = true) :
    tokens (c :: text) = tokens text := by
  rw [tokens_eq_tokensFrom, tokensFrom_cons_space [] c text hc]; rfl

/-- A character that is not whitespace begins a token. -/
theorem tokens_cons_char (c : Nat) (text : List Nat) (hc : isspace c = false) :
    tokens (c :: text) = tokensFrom [c] text := by
  rw [tokens_eq_tokensFrom, tokensFrom_cons_char [] c text hc]; rfl

/-- No token is empty. -/
theorem not_mem_tokens_nil (text : List Nat) : [] ∉ tokens text := by
  simp [tokens, List.mem_filter]

/-- pending characters make a token -/
theorem tokensFrom_ne_nil (cur : List Nat) (text : List Nat) (h : cur ≠ []) :
    ∃ t ts, tokensFrom cur text = t :: ts ∧ cur <+: t := by
  induction text generalizing cur with
  | nil => exact ⟨cur, [], by simp [tokensFrom_nil, h], List.prefix_refl _⟩
  | cons c text ih =>
    by_cases hc : isspace c = true
    · exact ⟨cur, tokens text, by simp [tokensFrom_cons_space _ _ _ hc, h], List.prefix_refl _⟩
    · have hc' : isspace c = false := by simpa using hc
      obtain ⟨t, ts, h1, h2⟩ := ih (cur ++ [c]) (by simp)
      exact ⟨t, ts, by rw [tokensFrom_cons_char _ _ _ hc', h1], (List.prefix_append _ _).trans h2⟩

/-- A text has a token exactly when one of its characters is not whitespace. -/
theorem tokens_ne_nil_iff (text : List Nat) :
    tokens text ≠ [] ↔ ∃ c ∈ text, isspace c = false := by
  induction text with
  | nil => simp [tokens_nil]
  | cons c text ih =>
    by_cases hc : isspace c = true
    · rw [tokens_cons_space c text hc, ih]
      simp [hc]
    · have hc' : isspace c = false := by simpa using hc
      constructor
      · intro _; exact ⟨c, List.mem_cons_self _ _, hc'⟩
      · intro _
        obtain ⟨t, ts, h1, _⟩ := tokensFrom_ne_nil [c] text (by simp)
        rw [tokens_cons_char c text hc', h1]; simp

/-- Whitespace before a text does not change its tokens. -/
theorem tokens_blank_append (w y : List Nat) (hw : ∀ c ∈ w, isspace c = true) :
    tokens (w ++ y) = tokens y := by
  induction w with
  | nil => rfl
  | cons c w ih =>
    rw [List.cons_append, tokens_cons_space c _ (hw c (List.mem_cons_self _ _))]
    exact ih (fun x hx => hw x (List.mem_cons_of_mem _ hx))

/-- The tokens of two texts separated by whitespace, a token being begun. -/
theorem tokensFrom_append_blank (cur x w y : List Nat) (hw : ∀ c ∈ w, isspace c = true)
    (hne : w ≠ []) :
    tokensFrom cur (x ++ (w ++ y)) = tokensFrom cur x ++ tokens y := by
  induction x generalizing cur with
  | nil =>
    obtain ⟨c, w', rfl⟩ := List.exists_cons_of_ne_nil hne
    rw [List.nil_append, List.cons_append,
      tokensFrom_cons_space cur c _ (hw c (List.mem_cons_self _ _)), tokensFrom_nil,
      tokens_blank_append w' y (fun x hx => hw x (List.mem_cons_of_mem _ hx))]
  | cons c x ih =>
    rw [List.cons_append]
    by_cases hs : isspace c = true
    · rw [tokensFrom_cons_space cur c _ hs, tokensFrom_cons_space cur c _ hs,
        tokens_eq_tokensFrom, ih [], ← tokens_eq_tokensFrom, List.append_assoc]
    · have hs' : isspace c = false := by simpa using hs
      rw [tokensFrom_cons_char cur c _ hs', tokensFrom_cons_char cur c _ hs', ih]

/-- The tokens of two texts separated by whitespace are those of the first, then those of
the second. -/
theorem tokens_append_blank (x w y : List Nat) (hw : ∀ c ∈ w, isspace c = true)
    (hne : w ≠ []) : tokens (x ++ (w ++ y)) = tokens x ++ tokens y := by
  rw [tokens_eq_tokensFrom, tokensFrom_append_blank [] x w y hw hne, ← tokens_eq_tokensFrom]

/-- The token begun runs up to the next whitespace. -/
theorem tokensFrom_takeWhile (cur l : List Nat) (hcur : cur ≠ []) :
    tokensFrom cur l = (cur ++ l.takeWhile (fun c => !isspace c)) ::
      tokens (l.dropWhile (fun c => !isspace c)) := by
  induction l generalizing cur with
  | nil => simp [tokensFrom_nil, hcur, tokens_nil]
  | cons c l ih =>
    by_cases hs : isspace c = true
    · rw [tokensFrom_cons_space cur c l hs]
      simp [hs, hcur, List.takeWhile, List.dropWhile, tokens_cons_space c l hs]
    · have hs' : isspace c = false := by simpa using hs
      rw [tokensFrom_cons_char cur c l hs', ih (cur ++ [c]) (by simp)]
      simp [hs', List.takeWhile, List.dropWhile]

/-- The first token of a text that starts with a character that is not whitespace. -/
theorem firstToken_of_head (x : Nat) (l : List Nat) (hx : isspace x = false) :
    firstToken (x :: l) = some (x :: l.takeWhile (fun c => !isspace c)) := by
  rw [firstToken, tokens_cons_char x l hx, tokensFrom_takeWhile [x] l (by simp)]
  rfl

/-- The first element that `takeWhile` keeps is the head of the list. -/
theorem takeWhile_eq_cons (p : Nat → Bool) (l : List Nat) (y : Nat) (t : List Nat)
    (h : l.takeWhile p = y :: t) : ∃ l', l = y :: l' ∧ l'.takeWhile p = t := by
  cases l with
  | nil => simp at h
  | cons c l' =>
    by_cases hc : p c = true
    · simp only [List.takeWhile, hc, List.cons.injEq] at h
      exact ⟨l', by rw [h.1], h.2⟩
    · have hc' : p c = false := by simpa using hc
      simp [List.takeWhile, hc'] at h

/-- When no leading character is kept as part of a token, the text ends a token. -/
theorem takeWhile_eq_nil_endsToken (l : List Nat)
    (h : l.takeWhile (fun c => !isspace c) = []) : endsToken l = true := by
  cases l with
  | nil => rfl
  | cons c l' =>
    by_cases hc : isspace c = true
    · simpa [endsToken] using hc
    · have hc' : isspace c = false := by simpa using hc
      simp [List.takeWhile, hc'] at h

/-- A text that ends a token gives no character to it. -/
theorem takeWhile_of_endsToken (l : List Nat) (h : endsToken l = true) :
    l.takeWhile (fun c => !isspace c) = [] := by
  cases l with
  | nil => rfl
  | cons c l' =>
    have : isspace c = true := by simpa [endsToken] using h
    simp [List.takeWhile, this]

/-- A name followed by a text that ends a token is taken whole. -/
theorem takeWhile_name (f r : List Nat) (hf : ∀ c ∈ f, isspace c = false)
    (hr : endsToken r = true) :
    (f ++ r).takeWhile (fun c => !isspace c) = f := by
  induction f with
  | nil => exact takeWhile_of_endsToken r hr
  | cons x f ih =>
    have hx := hf x (List.mem_cons_self _ _)
    rw [List.cons_append]
    simp only [List.takeWhile, hx, Bool.not_false]
    rw [ih (fun c hc => hf c (List.mem_cons_of_mem _ hc))]

/-- The first token of whitespace followed by a name. -/
theorem firstToken_blank_name (s f r : List Nat) (hs : ∀ c ∈ s, isspace c = true)
    (hne : f ≠ []) (hf : ∀ c ∈ f, isspace c = false) (hr : endsToken r = true) :
    firstToken (s ++ (f ++ r)) = some f := by
  obtain ⟨x, f', rfl⟩ := List.exists_cons_of_ne_nil hne
  rw [firstToken, tokens_blank_append s _ hs]
  show firstToken (x :: (f' ++ r)) = some (x :: f')
  rw [firstToken_of_head x _ (hf x (List.mem_cons_self _ _)),
    takeWhile_name f' r (fun c hc => hf c (List.mem_cons_of_mem _ hc)) hr]

/-- The first token is `exit` and the line starts with it -/
theorem firstToken_exit_iff (line : List Nat) :
    (firstToken line = some EXIT ∧ ∀ c, line.head? = some c → isspace c = false) ↔
      ∃ rest, line = EXIT ++ rest ∧ endsToken rest = true := by
  constructor
  · rintro ⟨h1, h2⟩
    cases line with
    | nil => simp [firstToken, tokens_nil] at h1
    | cons x l =>
      have hx := h2 x rfl
      rw [firstToken_of_head x l hx] at h1
      simp only [EXIT, Option.some.injEq, List.cons.injEq] at h1
      obtain ⟨rfl, g1⟩ := h1
      obtain ⟨l1, rfl, g2⟩ := takeWhile_eq_cons _ l _ _ g1
      obtain ⟨l2, rfl, g3⟩ := takeWhile_eq_cons _ l1 _ _ g2
      obtain ⟨l3, rfl, g4⟩ := takeWhile_eq_cons _ l2 _ _ g3
      exact ⟨l3, rfl, takeWhile_eq_nil_endsToken l3 g4⟩
  · rintro ⟨rest, rfl, hr⟩
    refine ⟨?_, ?_⟩
    · show firstToken (101 :: (120 :: 105 :: 116 :: rest)) = some EXIT
      rw [firstToken_of_head 101 _ (by decide)]
      have e : List.takeWhile (fun c => !isspace c) (120 :: 105 :: 116 :: rest) =
          120 :: 105 :: 116 :: List.takeWhile (fun c => !isspace c) rest := by
        have h1 : isspace 120 = false := by decide
        have h2 : isspace 105 = false := by decide
        have h3 : isspace 116 = false := by decide
        simp [List.takeWhile, h1, h2, h3]
      rw [e, takeWhile_of_endsToken rest hr]; rfl
    · intro c hc
      simp only [EXIT, List.cons_append, List.head?_cons, Option.some.injEq] at hc
      rw [← hc]; decide

/-- Dropping the characters before the first marker. -/
theorem dropWhile_marker (m : Nat) (a rest : List Nat) (ha : ∀ c ∈ a, c ≠ m) :
    (a ++ m :: rest).dropWhile (fun c => c != m) = m :: rest := by
  induction a with
  | nil => simp [List.dropWhile]
  | cons x a ih =>
    have hx : (x != m) = true := by simpa using ha x (List.mem_cons_self _ _)
    rw [List.cons_append]
    simp only [List.dropWhile, hx]
    exact ih (fun c hc => ha c (List.mem_cons_of_mem _ hc))

/-- The token after a marker that is followed by whitespace and a name. -/
theorem tokenAfter_name (m : Nat) (a s f r : List Nat) (ha : ∀ c ∈ a, c ≠ m)
    (hs : ∀ c ∈ s, isspace c = true) (hne : f ≠ []) (hf : ∀ c ∈ f, isspace c = false)
    (hr : endsToken r = true) :
    tokenAfter m (a ++ m :: (s ++ (f ++ r))) = some f := by
  rw [tokenAfter, dropWhile_marker m a _ ha]
  exact firstToken_blank_name s f r hs hne hf hr

/-! ## `trim` and the tokenizing loop -/

/-- The loop of `trim` only appends to `trimmedString`. -/
theorem trimLoop_acc (l : List Nat) (i : Nat) (b : Bool) (acc : List Nat) :
    trimLoop l i b acc = acc ++ trimLoop l i b [] := by
  induction l generalizing i b acc with
  | nil => simp [trimLoop]
  | cons c rest ih =>
    simp only [trimLoop]
    split
    · simp
    · split
      · split
        · exact ih _ _ _
        · split
          · exact ih _ _ _
          · rw [ih, ih (i + 1) true ([] ++ [c])]; simp
      · rw [ih, ih (i + 1) false ([] ++ [c])]; simp

/-- The loop of `trim` keeps at most the characters it reads. -/
theorem trimLoop_length (l : List Nat) (i : Nat) (b : Bool) :
    (trimLoop l i b []).length ≤ l.length := by
  induction l generalizing i b with
  | nil => simp [trimLoop]
  | cons c rest ih =>
    simp only [trimLoop]
    split
    · simp
    · split
      · split
        · exact Nat.le_succ_of_le (ih _ _)
        · split
          · exact Nat.le_succ_of_le (ih _ _)
          · rw [trimLoop_acc]; simp; exact ih _ _
      · rw [trimLoop_acc]; simp; exact ih _ _

/-- The loop of `trim` keeps characters of the buffer only. -/
theorem trimLoop_mem (l : List Nat) (i : Nat) (b : Bool) :
    ∀ x ∈ trimLoop l i b [], x ∈ l := by
  induction l generalizing i b with
  | nil => simp [trimLoop]
  | cons c rest ih =>
    intro x
    simp only [trimLoop]
    split
    · simp
    · split
      · split
        · intro hx; exact List.mem_cons_of_mem _ (ih _ _ x hx)
        · split
          · intro hx; exact List.mem_cons_of_mem _ (ih _ _ x hx)
          · rw [trimLoop_acc]; simp; intro hx
            rcases hx with hx | hx
            · exact Or.inl hx
            · exact Or.inr (ih _ _ x hx)
      · rw [trimLoop_acc]; simp; intro hx
        rcases hx with hx | hx
        · exact Or.inl hx
        · exact Or.inr (ih _ _ x hx)

/-- The loop of `trim` drops whitespace at the start and after whitespace. -/
theorem trimLoop_drop (c : Nat) (rest : List Nat) (i : Nat) (b : Bool)
    (hc : isspace c = true) (hd : b = true ∨ i = 0) :
    trimLoop (c :: rest) i b [] = trimLoop rest (i + 1) true [] := by
  have h0 : c ≠ TRAILING_ZERO := (isspace_ne c hc).1
  simp only [trimLoop, if_neg h0, hc, if_true]
  rcases hd with hd | hd
  · simp [hd]
  · simp [hd]

/-- The loop of `trim` keeps the first whitespace character after a word. -/
theorem trimLoop_keep_space (c : Nat) (rest : List Nat) (i : Nat)
    (hc : isspace c = true) (hi : i ≠ 0) :
    trimLoop (c :: rest) i false [] = c :: trimLoop rest (i + 1) true [] := by
  have h0 : c ≠ TRAILING_ZERO := (isspace_ne c hc).1
  simp only [trimLoop, if_neg h0, hc, if_true, Bool.false_eq_true, if_false, if_neg hi]
  rw [trimLoop_acc]; rfl

/-- The loop of `trim` keeps every character that is not whitespace. -/
theorem trimLoop_keep_char (c : Nat) (rest : List Nat) (i : Nat) (b : Bool)
    (h0 : c ≠ 0) (hc : isspace c = false) :
    trimLoop (c :: rest) i b [] = c :: trimLoop rest (i + 1) false [] := by
  have h0 : c ≠ TRAILING_ZERO := h0
  simp only [trimLoop, if_neg h0, hc, Bool.false_eq_true, if_false]
  rw [trimLoop_acc]; rfl

/-- The loop of `trim` stops at the terminating zero byte. -/
theorem trimLoop_append_zero (l : List Nat) (hl : ∀ c ∈ l, c ≠ 0) (z' : List Nat) (i : Nat)
    (b : Bool) (acc : List Nat) :
    trimLoop (l ++ 0 :: z') i b acc = trimLoop l i b acc := by
  induction l generalizing i b acc with
  | nil => simp [trimLoop]
  | cons c l ih =>
    have h0 : c ≠ TRAILING_ZERO := hl c (List.mem_cons_self _ _)
    have hl' : ∀ x ∈ l, x ≠ 0 := fun x hx => hl x (List.mem_cons_of_mem _ hx)
    rw [List.cons_append]
    simp only [trimLoop, if_neg h0, ih hl']

/-- After `trim`, a text with a token starts with a character that is not whitespace. -/
theorem trimLoop_head (l : List Nat) (hl : ∀ c ∈ l, isspace c = true ∨ isgraph c = true)
    (t : List Nat) (i : Nat) (b : Bool) (hd : b = true ∨ i = 0) (ht : tokens l ≠ []) :
    ∃ c T, trimLoop (l ++ t) i b [] = c :: T ∧ c ∈ l ∧ isspace c = false := by
  induction l generalizing i b with
  | nil => exact absurd tokens_nil ht
  | cons c l ih =>
    have hl' : ∀ x ∈ l, isspace x = true ∨ isgraph x = true :=
      fun x hx => hl x (List.mem_cons_of_mem _ hx)
    rw [List.cons_append]
    by_cases hs : isspace c = true
    · rw [trimLoop_drop c _ i b hs hd]
      rw [tokens_cons_space c l hs] at ht
      obtain ⟨x, T, e, hx, hxs⟩ := ih hl' (i + 1) true (Or.inl rfl) ht
      exact ⟨x, T, e, List.mem_cons_of_mem _ hx, hxs⟩
    · have hs' : isspace c = false := by simpa using hs
      have hg : isgraph c = true := by
        rcases hl c (List.mem_cons_self _ _) with hc | hc
        · exact absurd hc hs
        · exact hc
      rw [trimLoop_keep_char c _ i b (isgraph_ne c hg).1 hs']
      exact ⟨c, _, rfl, List.mem_cons_self _ _, hs'⟩

/-- The tokenizing loop at a whitespace character: the argument is stored. -/
theorem argLoop_space (c : Nat) (rest : List Nat) (st : ArgState) (hc : isspace c = true) :
    argLoop (c :: rest) st =
      argLoop rest
        { argv := st.argv ++ [some st.argument], argument := [], isLastSpace := true } := by
  have h0 : c ≠ TRAILING_ZERO := (isspace_ne c hc).1
  simp only [argLoop, if_neg h0, hc, if_true]

/-- The tokenizing loop at a printable character other than `&`: it joins the argument. -/
theorem argLoop_graph (c : Nat) (rest : List Nat) (st : ArgState) (hc : isgraph c = true)
    (hb : c ≠ PIPE_BACKGROUND) :
    argLoop (c :: rest) st =
      argLoop rest { st with argument := st.argument ++ [c], isLastSpace := false } := by
  have h0 : c ≠ TRAILING_ZERO := (isgraph_ne c hc).1
  simp only [argLoop, if_neg h0, (isgraph_ne c hc).2, Bool.false_eq_true, if_false, if_neg hb, hc,
    Bool.not_true]

/-- The tokenizing loop run on what the loop of trim keeps -/
theorem argLoop_trimLoop (l : List Nat)
    (hl : ∀ c ∈ l, (isspace c = true ∨ isgraph c = true) ∧ c ≠ PIPE_BACKGROUND)
    (z z' : List Nat) (i : Nat) (b : Bool) (st : ArgState)
    (hst : (b = false ∧ i ≠ 0 ∧ st.isLastSpace = false ∧ st.argument ≠ []) ∨
      ((b = true ∨ i = 0) ∧ st.argument = [] ∧ (st.isLastSpace = true ∨ tokens l ≠ []))) :
    ∃ st', argLoop (trimLoop (l ++ 0 :: z') i b [] ++ 0 :: z) st = (st', z.headD 0) ∧
      st'.argv ++ (if st'.isLastSpace then [] else [some st'.argument]) =
        st.argv ++ (tokensFrom st.argument l).map some := by
  induction l generalizing i b st with
  | nil =>
    refine ⟨st, by simp [trimLoop, argLoop], ?_⟩
    rcases hst with ⟨_, _, h1, h2⟩ | ⟨_, h1, h2⟩
    · simp [tokensFrom_nil, h1, h2]
    · rcases h2 with h2 | h2
      · simp [tokensFrom_nil, h1, h2]
      · exact absurd tokens_nil h2
  | cons c l ih =>
    have hl' : ∀ x ∈ l, (isspace x = true ∨ isgraph x = true) ∧ x ≠ PIPE_BACKGROUND :=
      fun x hx => hl x (List.mem_cons_of_mem _ hx)
    obtain ⟨hc, hcb⟩ := hl c (List.mem_cons_self _ _)
    rw [List.cons_append]
    by_cases hs : isspace c = true
    · rcases hst with ⟨hb, hi, h1, h2⟩ | ⟨hd, h1, h2⟩
      · subst hb
        rw [trimLoop_keep_space c _ i hs hi, List.cons_append, argLoop_space c _ st hs]
        obtain ⟨st', e1, e2⟩ := ih hl' (i + 1) true
          { argv := st.argv ++ [some st.argument], argument := [], isLastSpace := true }
          (Or.inr ⟨Or.inl rfl, rfl, Or.inl rfl⟩)
        refine ⟨st', e1, ?_⟩
        rw [e2, tokensFrom_cons_space _ _ _ hs, tokens_eq_tokensFrom]
        simp [h2]
      · rw [trimLoop_drop c _ i b hs hd]
        obtain ⟨st', e1, e2⟩ := ih hl' (i + 1) true st
          (Or.inr ⟨Or.inl rfl, h1, by rwa [tokens_cons_space c l hs] at h2⟩)
        refine ⟨st', e1, ?_⟩
        rw [e2, tokensFrom_cons_space _ _ _ hs, tokens_eq_tokensFrom]
        simp [h1]
    · have hs' : isspace c = false := by simpa using hs
      have hg : isgraph c = true := by
        rcases hc with hc | hc
        · exact absurd hc hs
        · exact hc
      rw [trimLoop_keep_char c _ i b (isgraph_ne c hg).1 hs', List.cons_append,
        argLoop_graph c _ st hg hcb]
      obtain ⟨st', e1, e2⟩ := ih hl' (i + 1) false
        { st with argument := st.argument ++ [c], isLastSpace := false }
        (Or.inl ⟨rfl, Nat.succ_ne_zero i, rfl, by simp⟩)
      refine ⟨st', e1, ?_⟩
      rw [e2, tokensFrom_cons_char _ _ _ hs']

/-- A buffer that starts with a character other than the zero byte, whitespace and `&` is
valid. -/
theorem isBufferValid_cons (c : Nat) (rest : List Nat) (h0 : c ≠ 0) (hs : isspace c = false)
    (hb : c ≠ PIPE_BACKGROUND) : isBufferValid (c :: rest) = true := by
  have h1 : strlen (c :: rest) ≠ 0 := by
    have : (c != TRAILING_ZERO) = true := by simpa using h0
    simp [strlen, List.takeWhile, this]
  simp [isBufferValid, h1, hs, hb]

/-- A buffer without `&` is not a background job. -/
theorem isBackgroundJob_false (buffer : Buffer) (h : ∀ c ∈ buffer, c ≠ PIPE_BACKGROUND) :
    isBackgroundJob buffer = false := by
  simp only [isBackgroundJob, List.any_eq_false, beq_iff_eq]
  intro x hx
  exact fun e => h x (List.mem_of_mem_take hx) e.symm

/-- prepareArguments on a text of printable characters and whitespace without marker -/
theorem prepareArguments_text (text : List Nat) (hlen : text.length < 513)
    (hl : ∀ c ∈ text, (isspace c = true ∨ isgraph c = true) ∧ c ≠ PIPE_BACKGROUND)
    (ht : tokens text ≠ []) :
    (prepareArguments (lineBuffer text)).1 = some ((tokens text).map some ++ [none]) ∧
    isBackgroundJob (prepareArguments (lineBuffer text)).2 = false := by
  have hz : ∀ c ∈ text, c ≠ 0 := by
    intro c hc
    rcases (hl c hc).1 with h | h
    · exact (isspace_ne c h).1
    · exact (isgraph_ne c h).1
  have hT : (trimLoop (text ++ 0 :: List.replicate (512 - text.length) 0) 0 false []).length
      < 513 := by
    rw [trimLoop_append_zero text hz]
    exact Nat.lt_of_le_of_lt (trimLoop_length _ _ _) hlen
  have htrim : trim (lineBuffer text) =
      trimLoop (text ++ 0 :: List.replicate (512 - text.length) 0) 0 false [] ++
        0 :: List.replicate (512 -
          (trimLoop (text ++ 0 :: List.replicate (512 - text.length) 0) 0 false []).length) 0 := by
    rw [trim, lineBuffer_cons_zero text hlen, memcpy_memset _ hT]
  obtain ⟨c, T, e, hc, hcs⟩ := trimLoop_head text (fun c hc => (hl c hc).1)
    (0 :: List.replicate (512 - text.length) 0) 0 false (Or.inr rfl) ht
  have hvalid : isBufferValid (trim (lineBuffer text)) = true := by
    rw [htrim, e, List.cons_append]
    exact isBufferValid_cons c _ (hz c hc) hcs (hl c hc).2
  obtain ⟨st', e1, e2⟩ := argLoop_trimLoop text hl
    (List.replicate (512 -
      (trimLoop (text ++ 0 :: List.replicate (512 - text.length) 0) 0 false []).length) 0)
    (List.replicate (512 - text.length) 0) 0 false
    { argv := [], argument := [], isLastSpace := false } (Or.inr ⟨Or.inr rfl, rfl, Or.inr ht⟩)
  have hhead : ∀ n : Nat, (List.replicate n 0).headD 0 = 0 := by
    intro n; cases n <;> rfl
  rw [← htrim, hhead] at e1
  constructor
  · simp only [prepareArguments, hvalid, Bool.not_true, Bool.false_eq_true, if_false, e1]
    rw [tokens_eq_tokensFrom]
    simp only [List.nil_append] at e2
    rw [← e2]
    cases st'.isLastSpace <;> simp
  · have : (prepareArguments (lineBuffer text)).2 = trim (lineBuffer text) := by
      simp only [prepareArguments]
      split
      · rfl
      · split <;> rfl
    rw [this, htrim]
    apply isBackgroundJob_false
    intro x hx
    rw [List.mem_append] at hx
    rcases hx with hx | hx
    · rw [trimLoop_append_zero text hz] at hx
      exact (hl x (trimLoop_mem _ _ _ x hx)).2
    · rw [List.mem_cons, List.mem_replicate] at hx
      rcases hx with hx | hx
      · rw [hx]; decide
      · rw [hx.2]; decide

/-- The tokenizing loop on what `trim` keeps of a text that ends with whitespace and is
followed by anything: every token of the text has been stored when the loop reaches what
follows. -/
theorem argLoop_trimLoop_blank_end (l : List Nat)
    (hl : ∀ c ∈ l, (isspace c = true ∨ isgraph c = true) ∧ c ≠ PIPE_BACKGROUND)
    (w : Nat) (hw : isspace w = true) (t : List Nat) (i : Nat) (b : Bool) (st : ArgState)
    (hst : (b = false ∧ i ≠ 0 ∧ st.isLastSpace = false ∧ st.argument ≠ []) ∨
      ((b = true ∨ i = 0) ∧ st.argument = [] ∧ (st.isLastSpace = true ∨ tokens l ≠ []))) :
    ∃ K i' b' st', trimLoop (l ++ w :: t) i b [] = K ++ trimLoop t i' b' [] ∧
      (∀ Y, argLoop (K ++ Y) st = argLoop Y st') ∧
      st'.argv = st.argv ++ (tokensFrom st.argument l).map some ∧
      K.length ≤ l.length + 1 := by
  induction l generalizing i b st with
  | nil =>
    rcases hst with ⟨hb, hi, h1, h2⟩ | ⟨hd, h1, h2⟩
    · subst hb
      refine ⟨[w], i + 1, true,
        { argv := st.argv ++ [some st.argument], argument := [], isLastSpace := true },
        ?_, ?_, ?_, by simp⟩
      · rw [List.nil_append, trimLoop_keep_space w t i hw hi]; rfl
      · intro Y; exact argLoop_space w Y st hw
      · simp [tokensFrom_nil, h2]
    · rcases h2 with h2 | h2
      · refine ⟨[], i + 1, true, st, ?_, fun Y => rfl, ?_, by simp⟩
        · rw [List.nil_append, trimLoop_drop w t i b hw hd]; rfl
        · simp [tokensFrom_nil, h1]
      · exact absurd tokens_nil h2
  | cons c l ih =>
    have hl' : ∀ x ∈ l, (isspace x = true ∨ isgraph x = true) ∧ x ≠ PIPE_BACKGROUND :=
      fun x hx => hl x (List.mem_cons_of_mem _ hx)
    obtain ⟨hc, hcb⟩ := hl c (List.mem_cons_self _ _)
    rw [List.cons_append]
    by_cases hs : isspace c = true
    · rcases hst with ⟨hb, hi, h1, h2⟩ | ⟨hd, h1, h2⟩
      · subst hb
        obtain ⟨K, i', b', st', e1, e2, e3, e4⟩ := ih hl' (i + 1) true
          { argv := st.argv ++ [some st.argument], argument := [], isLastSpace := true }
          (Or.inr ⟨Or.inl rfl, rfl, Or.inl rfl⟩)
        refine ⟨c :: K, i', b', st', ?_, ?_, ?_, by simpa using e4⟩
        · rw [trimLoop_keep_space c _ i hs hi, e1]; rfl
        · intro Y; rw [List.cons_append, argLoop_space c _ st hs]; exact e2 Y
        · rw [e3, tokensFrom_cons_space _ _ _ hs, tokens_eq_tokensFrom]
          simp [h2]
      · obtain ⟨K, i', b', st', e1, e2, e3, e4⟩ := ih hl' (i + 1) true st
          (Or.inr ⟨Or.inl rfl, h1, by rwa [tokens_cons_space c l hs] at h2⟩)
        refine ⟨K, i', b', st', ?_, e2, ?_, by simp only [List.length_cons]; omega⟩
        · rw [trimLoop_drop c _ i b hs hd, e1]
        · rw [e3, tokensFrom_cons_space _ _ _ hs, tokens_eq_tokensFrom]
          simp [h1]
    · have hs' : isspace c = false := by simpa using hs
      have hg : isgraph c = true := by
        rcases hc with hc | hc
        · exact absurd hc hs
        · exact hc
      obtain ⟨K, i', b', st', e1, e2, e3, e4⟩ := ih hl' (i + 1) false
        { st with argument := st.argument ++ [c], isLastSpace := false }
        (Or.inl ⟨rfl, Nat.succ_ne_zero i, rfl, by simp⟩)
      refine ⟨c :: K, i', b', st', ?_, ?_, ?_, by simpa using e4⟩
      · rw [trimLoop_keep_char c _ i b (isgraph_ne c hg).1 hs', e1]; rfl
      · intro Y; rw [List.cons_append, argLoop_graph c _ st hg hcb]; exact e2 Y
      · rw [e3, tokensFrom_cons_char _ _ _ hs']

/-- When the first `&` of the buffer follows whitespace, the text before it being made of
printable characters and whitespace with at least one token, `prepareArguments` returns
exactly the tokens of that text and the sentinel, and the job is a background job. -/
theorem prepareArguments_marker_after_blank (text : List Nat) (w : Nat) (rest : List Nat)
    (hl : ∀ c ∈ text, (isspace c = true ∨ isgraph c = true) ∧ c ≠ PIPE_BACKGROUND)
    (hw : isspace w = true) (ht : tokens text ≠ [])
    (hlen : text.length < MAX_LINE_SIZE) :
    (prepareArguments (text ++ w :: PIPE_BACKGROUND :: rest)).1
      = some ((tokens text).map some ++ [none]) ∧
    isBackgroundJob (prepareArguments (text ++ w :: PIPE_BACKGROUND :: rest)).2 = true := by
  obtain ⟨K, i', b', st', e1, e2, e3, e4⟩ := argLoop_trimLoop_blank_end text hl w hw
    (PIPE_BACKGROUND :: rest) 0 false { argv := [], argument := [], isLastSpace := false }
    (Or.inr ⟨Or.inr rfl, rfl, Or.inr ht⟩)
  obtain ⟨c, T, e, hc, hcs⟩ := trimLoop_head text (fun c hc => (hl c hc).1)
    (w :: PIPE_BACKGROUND :: rest) 0 false (Or.inr rfl) ht
  have hz : c ≠ 0 := by
    rcases (hl c hc).1 with h | h
    · exact (isspace_ne c h).1
    · exact (isgraph_ne c h).1
  rw [trimLoop_keep_char PIPE_BACKGROUND rest i' b' (by decide) (by decide)] at e1
  have htrim : trim (text ++ w :: PIPE_BACKGROUND :: rest) =
      K ++ (PIPE_BACKGROUND :: (trimLoop rest (i' + 1) false [] ++
        memset.drop (trimLoop (text ++ w :: PIPE_BACKGROUND :: rest) 0 false []).length)) := by
    rw [trim, memcpy]
    conv => lhs; arg 1; rw [e1]
    simp
  have hvalid : isBufferValid (trim (text ++ w :: PIPE_BACKGROUND :: rest)) = true := by
    rw [trim, memcpy, e, List.cons_append]
    exact isBufferValid_cons c _ hz hcs (hl c hc).2
  have hloop : argLoop (trim (text ++ w :: PIPE_BACKGROUND :: rest))
      { argv := [], argument := [], isLastSpace := false }
      = ({ st' with isLastSpace := false }, PIPE_BACKGROUND) := by
    have h38 : isspace PIPE_BACKGROUND = false := by decide
    rw [htrim, e2]
    simp [argLoop, h38]
  have hsnd : (prepareArguments (text ++ w :: PIPE_BACKGROUND :: rest)).2
      = trim (text ++ w :: PIPE_BACKGROUND :: rest) := by
    simp only [prepareArguments]
    split
    · rfl
    · split <;> rfl
  constructor
  · simp only [prepareArguments, hvalid, Bool.not_true, Bool.false_eq_true, if_false, hloop]
    simp only [List.nil_append] at e3
    rw [tokens_eq_tokensFrom, ← e3]
    simp
  · rw [hsnd, htrim]
    simp only [isBackgroundJob, List.any_eq_true, beq_iff_eq]
    refine ⟨PIPE_BACKGROUND, ?_, rfl⟩
    rw [List.take_append_eq_append_take, List.mem_append]
    right
    have h : MAX_BUFFER_SIZE - K.length = (512 - K.length) + 1 := by
      simp only [MAX_BUFFER_SIZE, MAX_LINE_SIZE] at *; omega
    rw [h, List.take_succ_cons]
    exact List.mem_cons_self _ _

/-- The line that is left when both markers and both names have been blanked -/
theorem prepareArguments_blanked (a s1 f1 b s2 f2 c : List Nat)
    (ha : plainText a = true) (hs1 : blankText s1 = true) (hb : plainText b = true)
    (hs2 : blankText s2 = true) (hc : plainText c = true)
    (hcmd : tokens a ++ tokens b ++ tokens c ≠ [])
    (hlen : (a ++ BLANK :: (s1 ++ (List.replicate f1.length BLANK ++
      (b ++ BLANK :: (s2 ++ (List.replicate f2.length BLANK ++ c)))))).length < 513) :
    (prepareArguments (lineBuffer (a ++ BLANK :: (s1 ++ (List.replicate f1.length BLANK ++
      (b ++ BLANK :: (s2 ++ (List.replicate f2.length BLANK ++ c)))))))).1
      = some ((tokens a ++ tokens b ++ tokens c).map some ++ [none]) ∧
    isBackgroundJob (prepareArguments (lineBuffer (a ++ BLANK :: (s1 ++
      (List.replicate f1.length BLANK ++
      (b ++ BLANK :: (s2 ++ (List.replicate f2.length BLANK ++ c)))))))).2 = false := by
  have hw : ∀ (s : List Nat) (n : Nat), blankText s = true →
      ∀ x ∈ BLANK :: (s ++ List.replicate n BLANK), isspace x = true := by
    intro s n hs x hx
    rw [List.mem_cons, List.mem_append, List.mem_replicate] at hx
    rcases hx with hx | hx | hx
    · rw [hx]; decide
    · exact (blankText_spec s hs x hx).1
    · rw [hx.2]; decide
  have htok : tokens (a ++ BLANK :: (s1 ++ (List.replicate f1.length BLANK ++
      (b ++ BLANK :: (s2 ++ (List.replicate f2.length BLANK ++ c))))))
      = tokens a ++ tokens b ++ tokens c := by
    have e1 : a ++ BLANK :: (s1 ++ (List.replicate f1.length BLANK ++
        (b ++ BLANK :: (s2 ++ (List.replicate f2.length BLANK ++ c)))))
        = a ++ ((BLANK :: (s1 ++ List.replicate f1.length BLANK)) ++
          (b ++ ((BLANK :: (s2 ++ List.replicate f2.length BLANK)) ++ c))) := by
      simp
    rw [e1, tokens_append_blank a _ _ (hw s1 _ hs1) (by simp),
      tokens_append_blank b _ _ (hw s2 _ hs2) (by simp), List.append_assoc]
  have hchars : ∀ x ∈ a ++ BLANK :: (s1 ++ (List.replicate f1.length BLANK ++
      (b ++ BLANK :: (s2 ++ (List.replicate f2.length BLANK ++ c))))),
      (isspace x = true ∨ isgraph x = true) ∧ x ≠ PIPE_BACKGROUND := by
    intro x hx
    simp only [List.mem_append, List.mem_cons, List.mem_replicate] at hx
    have hblank : (isspace BLANK = true ∨ isgraph BLANK = true) ∧ BLANK ≠ PIPE_BACKGROUND :=
      ⟨Or.inl (by decide), by decide⟩
    rcases hx with hx | hx | hx | hx | hx | hx | hx | hx | hx
    · exact ⟨(plainText_spec a ha x hx).1, (plainText_spec a ha x hx).2.2.2.2.2⟩
    · rw [hx]; exact hblank
    · exact ⟨Or.inl (blankText_spec s1 hs1 x hx).1, (blankText_spec s1 hs1 x hx).2.2.2.2.2⟩
    · rw [hx.2]; exact hblank
    · exact ⟨(plainText_spec b hb x hx).1, (plainText_spec b hb x hx).2.2.2.2.2⟩
    · rw [hx]; exact hblank
    · exact ⟨Or.inl (blankText_spec s2 hs2 x hx).1, (blankText_spec s2 hs2 x hx).2.2.2.2.2⟩
    · rw [hx.2]; exact hblank
    · exact ⟨(plainText_spec c hc x hx).1, (plainText_spec c hc x hx).2.2.2.2.2⟩
  have := prepareArguments_text _ hlen hchars (by rw [htok]; exact hcmd)
  rw [htok] at this
  exact this

/-! ## `getFilename` -/

/-- The first loop of `getFilename` blanks the marker and hands over to the second. -/
theorem getFilenameFrom_found (p : Nat) (a t : List Nat) (hp : p ≠ 0 ∧ p ≠ 10)
    (ha : ∀ c ∈ a, c ≠ p ∧ c ≠ 0 ∧ c ≠ 10) :
    getFilenameFrom p (a ++ p :: t) =
      ((scanName t true none).1, a ++ BLANK :: (scanName t true none).2) := by
  induction a with
  | nil =>
    have h1 : ¬ (p = TRAILING_ZERO ∨ p = NEW_LINE) := by
      intro h; rcases h with h | h
      · exact hp.1 h
      · exact hp.2 h
    simp [getFilenameFrom, h1]
  | cons c a ih =>
    obtain ⟨h1, h2, h3⟩ := ha c (List.mem_cons_self _ _)
    have h4 : ¬ (c = TRAILING_ZERO ∨ c = NEW_LINE) := by
      intro h; rcases h with h | h
      · exact h2 h
      · exact h3 h
    rw [List.cons_append]
    simp only [getFilenameFrom, Bool.or_eq_true, decide_eq_true_eq, if_neg h4, if_neg h1]
    rw [ih (fun x hx => ha x (List.mem_cons_of_mem _ hx))]
    rfl

/-- The scan of a name stops at a text that ends a token, or at the terminator after it. -/
theorem stopsScan_of_endsToken (t z : List Nat) (h : endsToken t = true) :
    stopsScan (t ++ 0 :: z) := by
  cases t with
  | nil => left; rfl
  | cons c r => right; simpa [endsToken] using h

/-- The scan of a name stops at whitespace. -/
theorem stopsScan_cons_blank (c : Nat) (r : List Nat) (h : isspace c = true) :
    stopsScan (c :: r) := Or.inr h

/-- Once a name is begun, the second loop of `getFilename` stops where the scan stops. -/
theorem scanName_stop (rest : List Nat) (h : stopsScan rest) (fn : Option (List Nat)) :
    scanName rest false fn = (fn, rest) := by
  cases rest with
  | nil => rfl
  | cons c r =>
    simp only [stopsScan, List.headD_cons] at h
    simp only [scanName]
    split
    · rfl
    · rcases h with h | h
      · rename_i h'; simp [h] at h'
      · simp [h]

/-- The second loop of `getFilename` on the rest of a name: it is stored and blanked. -/
theorem scanName_name (f rest : List Nat) (acc : List Nat)
    (hf : ∀ c ∈ f, isspace c = false ∧ c ≠ 0) (hrest : stopsScan rest) :
    scanName (f ++ rest) false (some acc) =
      (some (acc ++ f), List.replicate f.length BLANK ++ rest) := by
  induction f generalizing acc with
  | nil => simp [scanName_stop rest hrest]
  | cons c f ih =>
    obtain ⟨h1, h2⟩ := hf c (List.mem_cons_self _ _)
    have h3 : ¬ (c = TRAILING_ZERO ∨ c = NEW_LINE) := by
      intro h; rcases h with h | h
      · exact h2 h
      · rw [h] at h1; exact absurd h1 (by decide)
    rw [List.cons_append]
    simp only [scanName, Bool.or_eq_true, decide_eq_true_eq, if_neg h3, h1, Bool.false_eq_true,
      if_false]
    rw [show (some acc).getD [] = acc from rfl,
      ih (acc ++ [c]) (fun x hx => hf x (List.mem_cons_of_mem _ hx))]
    simp [List.replicate_succ]

/-- The second loop of `getFilename` skips the whitespace before the name. -/
theorem scanName_blank (s t : List Nat) (hs : ∀ c ∈ s, isspace c = true ∧ c ≠ 10)
    (fn : Option (List Nat)) :
    scanName (s ++ t) true fn = ((scanName t true fn).1, s ++ (scanName t true fn).2) := by
  induction s with
  | nil => rfl
  | cons c s ih =>
    obtain ⟨h1, h2⟩ := hs c (List.mem_cons_self _ _)
    have h3 : ¬ (c = TRAILING_ZERO ∨ c = NEW_LINE) := by
      intro h; rcases h with h | h
      · exact (isspace_ne c h1).1 h
      · exact h2 h
    rw [List.cons_append]
    simp only [scanName, Bool.or_eq_true, decide_eq_true_eq, if_neg h3, h1, if_true]
    rw [ih (fun x hx => hs x (List.mem_cons_of_mem _ hx))]
    rfl

/-- The second loop of `getFilename` on a name: it is stored and blanked. -/
theorem scanName_first (f rest : List Nat) (hne : f ≠ [])
    (hf : ∀ c ∈ f, isspace c = false ∧ c ≠ 0) (hrest : stopsScan rest) :
    scanName (f ++ rest) true none = (some f, List.replicate f.length BLANK ++ rest) := by
  obtain ⟨c, f', rfl⟩ := List.exists_cons_of_ne_nil hne
  obtain ⟨h1, h2⟩ := hf c (List.mem_cons_self _ _)
  have h3 : ¬ (c = TRAILING_ZERO ∨ c = NEW_LINE) := by
    intro h; rcases h with h | h
    · exact h2 h
    · rw [h] at h1; exact absurd h1 (by decide)
  rw [List.cons_append]
  simp only [scanName, Bool.or_eq_true, decide_eq_true_eq, if_neg h3, h1, Bool.false_eq_true,
    if_false]
  rw [show (none : Option (List Nat)).getD [] = [] from rfl,
    scanName_name f' rest ([] ++ [c]) (fun x hx => hf x (List.mem_cons_of_mem _ hx)) hrest]
  simp [List.replicate_succ]

/-- getFilename on a buffer where the marker is followed by blanks and a name -/
theorem getFilenameFrom_name (p : Nat) (a s f rest : List Nat) (hp : p ≠ 0 ∧ p ≠ 10)
    (ha : ∀ c ∈ a, c ≠ p ∧ c ≠ 0 ∧ c ≠ 10)
    (hs : ∀ c ∈ s, isspace c = true ∧ c ≠ 10) (hne : f ≠ [])
    (hf : ∀ c ∈ f, isspace c = false ∧ c ≠ 0) (hrest : stopsScan rest) :
    getFilenameFrom p (a ++ p :: (s ++ (f ++ rest))) =
      (some f, a ++ BLANK :: (s ++ (List.replicate f.length BLANK ++ rest))) := by
  rw [getFilenameFrom_found p a _ hp ha, scanName_blank s _ hs, scanName_first f rest hne hf hrest]

/-- The parse of `startJob` once both file names are found and blanked. -/
theorem startJobParse_blanked (L a s1 f1 b s2 f2 c : List Nat) (fo fi : List Nat)
    (ha : plainText a = true) (hs1 : blankText s1 = true) (hb : plainText b = true)
    (hs2 : blankText s2 = true) (hc : plainText c = true)
    (hcmd : tokens a ++ tokens b ++ tokens c ≠ [])
    (hlen : L.length < 513)
    (hL : L.length = (a ++ BLANK :: (s1 ++ (List.replicate f1.length BLANK ++
      (b ++ BLANK :: (s2 ++ (List.replicate f2.length BLANK ++ c)))))).length)
    (ho : (getFilename Pipe.output (lineBuffer L)).1 = some fo)
    (hi : getFilename Pipe.input (getFilename Pipe.output (lineBuffer L)).2 =
      (some fi, a ++ BLANK :: (s1 ++ (List.replicate f1.length BLANK ++
        (b ++ BLANK :: (s2 ++ (List.replicate f2.length BLANK ++
          (c ++ 0 :: List.replicate (512 - L.length) 0)))))))) :
    (startJobParse (lineBuffer L)).outputFilename = some fo ∧
    (startJobParse (lineBuffer L)).inputFilename = some fi ∧
    (startJobParse (lineBuffer L)).args
      = some ((tokens a ++ tokens b ++ tokens c).map some ++ [none]) ∧
    isBackgroundJob (startJobParse (lineBuffer L)).buffer = false := by
  have hlen' := hlen
  rw [hL] at hlen'
  have e : a ++ BLANK :: (s1 ++ (List.replicate f1.length BLANK ++
        (b ++ BLANK :: (s2 ++ (List.replicate f2.length BLANK ++
          (c ++ 0 :: List.replicate (512 - L.length) 0))))))
      = lineBuffer (a ++ BLANK :: (s1 ++ (List.replicate f1.length BLANK ++
        (b ++ BLANK :: (s2 ++ (List.replicate f2.length BLANK ++ c)))))) := by
    rw [lineBuffer_cons_zero _ hlen', ← hL]
    simp
  rw [e] at hi
  obtain ⟨h1, h2⟩ := prepareArguments_blanked a s1 f1 b s2 f2 c ha hs1 hb hs2 hc hcmd hlen'
  refine ⟨?_, ?_, ?_, ?_⟩
  · simp only [startJobParse, ho]
  · simp only [startJobParse, hi]
  · simp only [startJobParse, hi, h1]
  · simp only [startJobParse, hi, h2]

/-- The parse of `startJob` on a line with both markers, each followed by a file name. -/
theorem startJobParse_redirectionLine (first second : Pipe) (hfs : first ≠ second)
    (a s1 f1 b s2 f2 c : List Nat)
    (ha : plainText a = true) (hs1 : blankText s1 = true) (hf1 : nameText f1 = true)
    (hb : plainText b = true) (hb0 : b ≠ []) (hb1 : endsToken b = true)
    (hs2 : blankText s2 = true) (hf2 : nameText f2 = true)
    (hc : plainText c = true) (hc1 : endsToken c = true)
    (hcmd : tokens a ++ tokens b ++ tokens c ≠ [])
    (hlen : (redirectionLine first second a s1 f1 b s2 f2 c).length < MAX_LINE_SIZE) :
    (startJobParse (lineBuffer (redirectionLine first second a s1 f1 b s2 f2 c))).outputFilename
      = some (if first = Pipe.output then f1 else f2) ∧
    (startJobParse (lineBuffer (redirectionLine first second a s1 f1 b s2 f2 c))).inputFilename
      = some (if first = Pipe.input then f1 else f2) ∧
    (startJobParse (lineBuffer (redirectionLine first second a s1 f1 b s2 f2 c))).args
      = some ((tokens a ++ tokens b ++ tokens c).map some ++ [none]) ∧
    isBackgroundJob
      (startJobParse (lineBuffer (redirectionLine first second a s1 f1 b s2 f2 c))).buffer
      = false := by
  have hlen' : (redirectionLine first second a s1 f1 b s2 f2 c).length < 513 :=
    Nat.lt_succ_of_lt hlen
  have hL : (redirectionLine first second a s1 f1 b s2 f2 c).length =
      (a ++ BLANK :: (s1 ++ (List.replicate f1.length BLANK ++
      (b ++ BLANK :: (s2 ++ (List.replicate f2.length BLANK ++ c)))))).length := by
    simp [redirectionLine]
  have hA := plainText_spec a ha
  have hB := plainText_spec b hb
  have hS1 := blankText_spec s1 hs1
  have hS2 := blankText_spec s2 hs2
  obtain ⟨hF1n, hF1⟩ := nameText_spec f1 hf1
  obtain ⟨hF2n, hF2⟩ := nameText_spec f2 hf2
  have hstopb : ∀ r : List Nat, stopsScan (b ++ r) := by
    intro r
    obtain ⟨x, b', rfl⟩ := List.exists_cons_of_ne_nil hb0
    exact stopsScan_cons_blank x _ (by simpa [endsToken] using hb1)
  have hbuf := lineBuffer_cons_zero _ hlen'
  cases first <;> cases second
  · exact absurd rfl hfs
  · -- the line is `a < s1 f1 b > s2 f2 c`
    apply startJobParse_blanked _ a s1 f1 b s2 f2 c f2 f1 ha hs1 hb hs2 hc hcmd hlen' hL
    all_goals
      have g1 := getFilenameFrom_name PIPE_OUTPUT (a ++ PIPE_INPUT :: (s1 ++ (f1 ++ b))) s2 f2
        (c ++ 0 :: List.replicate
          (512 - (redirectionLine Pipe.input Pipe.output a s1 f1 b s2 f2 c).length) 0)
        ⟨by decide, by decide⟩
        (by
          intro x hx
          simp only [List.mem_append, List.mem_cons] at hx
          rcases hx with hx | hx | hx | hx | hx
          · exact ⟨(hA x hx).2.2.2.2.1, (hA x hx).2.1, (hA x hx).2.2.1⟩
          · rw [hx]; exact ⟨by decide, by decide, by decide⟩
          · exact ⟨(hS1 x hx).2.2.2.2.1, (hS1 x hx).2.1, (hS1 x hx).2.2.1⟩
          · exact ⟨(hF1 x hx).2.2.2.2.1, (hF1 x hx).2.1, (hF1 x hx).2.2.1⟩
          · exact ⟨(hB x hx).2.2.2.2.1, (hB x hx).2.1, (hB x hx).2.2.1⟩)
        (fun x hx => ⟨(hS2 x hx).1, (hS2 x hx).2.2.1⟩) hF2n
        (fun x hx => ⟨(hF2 x hx).1, (hF2 x hx).2.1⟩) (stopsScan_of_endsToken c _ hc1)
      have e1 : lineBuffer (redirectionLine Pipe.input Pipe.output a s1 f1 b s2 f2 c) =
          (a ++ PIPE_INPUT :: (s1 ++ (f1 ++ b))) ++ PIPE_OUTPUT :: (s2 ++ (f2 ++
            (c ++ 0 :: List.replicate
              (512 - (redirectionLine Pipe.input Pipe.output a s1 f1 b s2 f2 c).length) 0))) := by
        rw [hbuf]; simp [redirectionLine, Pipe.char]
      have ho : getFilename Pipe.output
          (lineBuffer (redirectionLine Pipe.input Pipe.output a s1 f1 b s2 f2 c)) =
          (some f2, (a ++ PIPE_INPUT :: (s1 ++ (f1 ++ b))) ++ BLANK :: (s2 ++
            (List.replicate f2.length BLANK ++ (c ++ 0 :: List.replicate
              (512 - (redirectionLine Pipe.input Pipe.output a s1 f1 b s2 f2 c).length) 0)))) := by
        rw [getFilename, e1]; exact g1
    · rw [ho]
    · rw [ho]
      have g2 := getFilenameFrom_name PIPE_INPUT a s1 f1
        (b ++ BLANK :: (s2 ++ (List.replicate f2.length BLANK ++ (c ++ 0 :: List.replicate
          (512 - (redirectionLine Pipe.input Pipe.output a s1 f1 b s2 f2 c).length) 0))))
        ⟨by decide, by decide⟩
        (fun x hx => ⟨(hA x hx).2.2.2.1, (hA x hx).2.1, (hA x hx).2.2.1⟩)
        (fun x hx => ⟨(hS1 x hx).1, (hS1 x hx).2.2.1⟩) hF1n
        (fun x hx => ⟨(hF1 x hx).1, (hF1 x hx).2.1⟩) (hstopb _)
      rw [getFilename]
      simp only [Pipe.char, List.append_assoc, List.cons_append] at g2 ⊢
      exact g2
  · -- the line is `a > s1 f1 b < s2 f2 c`
    apply startJobParse_blanked _ a s1 f1 b s2 f2 c f1 f2 ha hs1 hb hs2 hc hcmd hlen' hL
    all_goals
      have g1 := getFilenameFrom_name PIPE_OUTPUT a s1 f1
        (b ++ PIPE_INPUT :: (s2 ++ (f2 ++ (c ++ 0 :: List.replicate
          (512 - (redirectionLine Pipe.output Pipe.input a s1 f1 b s2 f2 c).length) 0))))
        ⟨by decide, by decide⟩
        (fun x hx => ⟨(hA x hx).2.2.2.2.1, (hA x hx).2.1, (hA x hx).2.2.1⟩)
        (fun x hx => ⟨(hS1 x hx).1, (hS1 x hx).2.2.1⟩) hF1n
        (fun x hx => ⟨(hF1 x hx).1, (hF1 x hx).2.1⟩) (hstopb _)
      have e1 : lineBuffer (redirectionLine Pipe.output Pipe.input a s1 f1 b s2 f2 c) =
          a ++ PIPE_OUTPUT :: (s1 ++ (f1 ++ (b ++ PIPE_INPUT :: (s2 ++ (f2 ++ (c ++ 0 ::
            List.replicate
              (512 - (redirectionLine Pipe.output Pipe.input a s1 f1 b s2 f2 c).length)
              0)))))) := by
        rw [hbuf]; simp [redirectionLine, Pipe.char]
      have ho : getFilename Pipe.output
          (lineBuffer (redirectionLine Pipe.output Pipe.input a s1 f1 b s2 f2 c)) =
          (some f1, a ++ BLANK :: (s1 ++ (List.replicate f1.length BLANK ++
            (b ++ PIPE_INPUT :: (s2 ++ (f2 ++ (c ++ 0 :: List.replicate
              (512 - (redirectionLine Pipe.output Pipe.input a s1 f1 b s2 f2 c).length)
              0))))))) := by
        rw [getFilename, e1]; exact g1
    · rw [ho]
    · rw [ho]
      have g2 := getFilenameFrom_name PIPE_INPUT
        (a ++ BLANK :: (s1 ++ (List.replicate f1.length BLANK ++ b))) s2 f2
        (c ++ 0 :: List.replicate
          (512 - (redirectionLine Pipe.output Pipe.input a s1 f1 b s2 f2 c).length) 0)
        ⟨by decide, by decide⟩
        (by
          intro x hx
          simp only [List.mem_append, List.mem_cons, List.mem_replicate] at hx
          rcases hx with hx | hx | hx | hx | hx
          · exact ⟨(hA x hx).2.2.2.1, (hA x hx).2.1, (hA x hx).2.2.1⟩
          · rw [hx]; exact ⟨by decide, by decide, by decide⟩
          · exact ⟨(hS1 x hx).2.2.2.1, (hS1 x hx).2.1, (hS1 x hx).2.2.1⟩
          · rw [hx.2]; exact ⟨by decide, by decide, by decide⟩
          · exact ⟨(hB x hx).2.2.2.1, (hB x hx).2.1, (hB x hx).2.2.1⟩)
        (fun x hx => ⟨(hS2 x hx).1, (hS2 x hx).2.2.1⟩) hF2n
        (fun x hx => ⟨(hF2 x hx).1, (hF2 x hx).2.1⟩) (stopsScan_of_endsToken c _ hc1)
      rw [getFilename]
      simp only [Pipe.char, List.append_assoc, List.cons_append] at g2 ⊢
      exact g2
  · exact absurd rfl hfs

/-- Without argument vector `startJob` only reports. -/
theorem startJob_none (env : Env) (s : State) (h : (startJobParse s.buffer).args = none) :
    startJob env s = { s with buffer := (startJobParse s.buffer).buffer,
                              reports := s.reports ++ [Report.invalidArguments] } := by
  simp [startJob, h]

/-- The function `startJob` does not touch `isFinished`. -/
theorem startJob_isFinished (env : Env) (s : State) :
    (startJob env s).isFinished = s.isFinished := by
  unfold startJob startJobParent initSigAction
  simp only
  split
  · rfl
  · split
    · split
      · rfl
      · split <;> rfl
    · split <;> rfl

/-- With an argument vector and a successful `fork`, `startJob` records one child. -/
theorem startJob_jobs_some (env : Env) (s : State) (args : Argv)
    (h : (startJobParse s.buffer).args = some args) (hf : env.fork > 0) :
    (startJob env s).jobs = s.jobs ++
      [Job.mk (startJobParse s.buffer).outputFilename (startJobParse s.buffer).inputFilename
        (isBackgroundJob (startJobParse s.buffer).buffer) args] := by
  unfold startJob startJobParent initSigAction
  simp only [h, hf, if_true]
  split
  · rfl
  · split <;> rfl

/-- The function `startJob` records a child only with an argument vector and a successful
`fork`. -/
theorem startJob_jobs_cases (env : Env) (s : State) :
    (startJob env s).jobs = s.jobs ∨
    ∃ args, (startJobParse s.buffer).args = some args ∧ env.fork > 0 := by
  rcases h : (startJobParse s.buffer).args with _ | args
  · left; rw [startJob_none env s h]
  · by_cases hf : env.fork > 0
    · right; exact ⟨args, rfl, hf⟩
    · left
      unfold startJob
      simp only [h, hf, if_false]
      split <;> rfl

/-- The test of `run` for the exit command, on the buffer that holds a line. -/
theorem isExit_lineBuffer (line : List Nat) (hlen : line.length < 513) (h0 : 0 ∉ line) :
    isExit (lineBuffer line) = true ↔ ∃ rest, line = EXIT ++ rest ∧ endsToken rest = true := by
  rw [lineBuffer_cons_zero line hlen]
  generalize List.replicate (512 - line.length) 0 = z
  match line, h0 with
  | [], _ => simp [isExit, EXIT]
  | [x0], _ => simp [isExit, EXIT]
  | [x0, x1], _ => simp [isExit, EXIT]
  | [x0, x1, x2], _ => simp [isExit, EXIT]
  | [x0, x1, x2, x3], _ =>
    simp only [isExit, EXIT, List.cons_append, List.nil_append, List.getD_cons_zero,
      List.getD_cons_succ, Bool.and_eq_true, beq_iff_eq, Bool.or_eq_true]
    constructor
    · rintro ⟨⟨⟨⟨rfl, rfl⟩, rfl⟩, rfl⟩, _⟩
      exact ⟨[], rfl, rfl⟩
    · rintro ⟨rest, h, _⟩
      simp only [List.cons.injEq] at h
      obtain ⟨rfl, rfl, rfl, rfl, _⟩ := h
      simp
  | x0 :: x1 :: x2 :: x3 :: x4 :: rest, h0 =>
    have h4 : x4 ≠ 0 := by
      intro h; apply h0; simp [h]
    simp only [isExit, EXIT, List.cons_append, List.nil_append, List.getD_cons_zero,
      List.getD_cons_succ, Bool.and_eq_true, beq_iff_eq, Bool.or_eq_true]
    constructor
    · rintro ⟨⟨⟨⟨rfl, rfl⟩, rfl⟩, rfl⟩, h⟩
      rcases h with h | h
      · exact absurd h h4
      · exact ⟨x4 :: rest, rfl, by simpa [endsToken] using h⟩
    · rintro ⟨r, h, hr⟩
      simp only [List.cons.injEq] at h
      obtain ⟨rfl, rfl, rfl, rfl, rfl⟩ := h
      exact ⟨⟨⟨⟨rfl, rfl⟩, rfl⟩, rfl⟩, Or.inr (by simpa [endsToken] using hr)⟩

/-- One pass of `run` on the exit command. -/
theorem run_exit (env : Env) (s : State) (h1 : s.isInputTooLong = false)
    (h2 : isExit s.buffer = true) :
    run env s = { s with isFinished := true, isProcessRunning := false } := by
  simp [run, h1, h2]

/-- One pass of `run` on a non-empty line that is not the exit command. -/
theorem run_startJob (env : Env) (s : State) (h1 : s.isInputTooLong = false)
    (h2 : isExit s.buffer = false) (h3 : strlen s.buffer > 0) :
    run env s = { startJob env s with isProcessRunning := false } := by
  simp [run, h1, h2, h3]

/-- One pass of `run` on a line that is not the exit command. -/
theorem run_not_exit (env : Env) (s : State) (h1 : s.isInputTooLong = false)
    (h2 : isExit s.buffer = false) :
    (run env s).isFinished = s.isFinished ∧
    ((startJobParse s.buffer).args = none → (run env s).jobs = s.jobs) ∧
    (run env s).isProcessRunning = false := by
  by_cases h3 : strlen s.buffer > 0
  · rw [run_startJob env s h1 h2 h3]
    refine ⟨startJob_isFinished env s, ?_, rfl⟩
    intro h; show (startJob env s).jobs = s.jobs
    rw [startJob_none env s h]
  · simp [run, h1, h2, h3]

/-! ## `dump` and `suck` -/

/-- After `close(fd)` the descriptor `fd` is closed. -/
theorem closeFd_lookup (fds : FdTable) (fd : Int) : fdLookup (closeFd fds fd) fd = none := by
  unfold fdLookup closeFd
  by_cases h : fd < 0
  · simp [h]
  · simp only [h, if_false]
    by_cases hl : fd.toNat < fds.length
    · simp [List.getElem?_set, hl]
    · have : (fds.set fd.toNat none)[fd.toNat]? = none :=
        List.getElem?_eq_none (by simp; omega)
      simp [this]

/-- Without a file name, `dump` and `suck` leave the descriptor table as it is. -/
theorem dump_suck_absent (canOpen : List Nat → Bool) (fds : FdTable) :
    dump canOpen none fds = (fds, []) ∧ suck canOpen none fds = (fds, []) := ⟨rfl, rfl⟩

/-- When `open` fails, `dump` reports it and goes on to `close(STDOUT_FILENO)`: whatever the
table, standard output is closed afterwards. -/
theorem dump_open_failure (name : List Nat) (fds : FdTable) :
    fdLookup (dump (fun _ => false) (some name) fds).1 STDOUT_FILENO = none ∧
    (dump (fun _ => false) (some name) fds).2 = [Report.cantOpenOutput] := by
  constructor
  · have : (dump (fun _ => false) (some name) fds).1 = closeFd fds STDOUT_FILENO := by
      simp [dump, openFile, dupFd, fdLookup, closeFd]
    rw [this]; exact closeFd_lookup _ _
  · simp [dump, openFile]

/-- When `open` fails, `suck` reports it and goes on to `close(STDIN_FILENO)`. -/
theorem suck_open_failure (name : List Nat) (fds : FdTable) :
    fdLookup (suck (fun _ => false) (some name) fds).1 STDIN_FILENO = none ∧
    (suck (fun _ => false) (some name) fds).2 = [Report.cantOpenInput] := by
  constructor
  · have : (suck (fun _ => false) (some name) fds).1 = closeFd fds STDIN_FILENO := by
      simp [suck, openFile, dupFd, fdLookup, closeFd]
    rw [this]; exact closeFd_lookup _ _
  · simp [suck, openFile]

/-! ## Characters the parser leaves out of a token or takes into a name -/

/-- The guard `if (!isgraph(buffer[i])) continue;` of `prepareArguments` leaves a character
that is neither whitespace nor printable out of its token: the line made of `a`, a space,
the control character of code 1, a space and `b` is shorter than the maximum, has a
character that is not whitespace and no marker; its whitespace-delimited tokens are `a`, the
control character and `b`, but the strings assigned to `argv` are `a`, an empty string and
`b`. -/
theorem prepareArguments_skips_control_character :
    [97, 32, 1, 32, 98].length < MAX_LINE_SIZE ∧
    (∃ c ∈ [97, 32, 1, 32, 98], isspace c = false) ∧
    (∀ c ∈ [97, 32, 1, 32, 98], c ≠ PIPE_INPUT ∧ c ≠ PIPE_OUTPUT ∧ c ≠ PIPE_BACKGROUND) ∧
    tokens [97, 32, 1, 32, 98] = [[97], [1], [98]] ∧
    (prepareArguments (lineBuffer [97, 32, 1, 32, 98])).1
      = some [some [97], some [], some [98], none] := by
  set_option maxRecDepth 100000 in decide

/-- `getFilename` takes every character up to the next whitespace into the name, the other
marker included: the line `sort >out<in` has one `>` and one `<`, each followed by a file
name, and no `&`; the token that follows `<` is `in`, but `startJob` finds no input file
name, the name it takes for the output being `out<in`. -/
theorem getFilename_takes_glued_marker :
    (str "sort >out<in").count PIPE_OUTPUT = 1 ∧ (str "sort >out<in").count PIPE_INPUT = 1 ∧
    PIPE_BACKGROUND ∉ str "sort >out<in" ∧
    tokenAfter PIPE_INPUT (str "sort >out<in") = some (str "in") ∧
    (startJobParse (lineBuffer (str "sort >out<in"))).inputFilename = none ∧
    (startJobParse (lineBuffer (str "sort >out<in"))).outputFilename = some (str "out<in") := by
  set_option maxRecDepth 100000 in decide

/-! ## The heap: blocks and stores -/

/-- The block `realloc` returns has the size asked for. -/
theorem realloc_length {α : Type} (block : Block α) (size : Nat) :
    (realloc block size).length = size := by
  simp only [realloc, List.length_append, List.length_take, List.length_replicate]
  omega

/-- A store inside the block succeeds. -/
theorem store_ok {α : Type} (block : Block α) (index : Nat) (value : α)
    (h : index < block.length) :
    store block index value = Except.ok (block.set index (some value)) := by
  simp [store, h]

/-- A store outside the block is a fault. -/
theorem store_error {α : Type} (block : Block α) (index : Nat) (value : α)
    (h : block.length ≤ index) :
    store block index value = Except.error (Fault.outOfBounds index block.length) := by
  simp [store, Nat.not_lt.2 h]

/-- A store leaves the size of the block as it is. -/
theorem store_length {α : Type} (block b : Block α) (index : Nat) (value : α)
    (h : store block index value = Except.ok b) : b.length = block.length := by
  unfold store at h
  split at h
  · cases h; simp
  · cases h

/-! ## `prepareArguments` on the heap -/

/-- Through the loop of `prepareArguments` the block of `argv` has `argc` slots, and one slot
as long as `argc` is zero; `isLastSpace` is set only once a slot has been written. -/
theorem argLoopHeap_capacity (l : List Nat) (st : ArgHeap) (r : ArgHeap × Nat)
    (h1 : st.argv.length = max 1 st.argc) (h2 : st.isLastSpace = true → 0 < st.argc)
    (hr : argLoopHeap l st = Except.ok r) :
    r.1.argv.length = max 1 r.1.argc ∧ (r.1.isLastSpace = true → 0 < r.1.argc) := by
  induction l generalizing st with
  | nil =>
    simp only [argLoopHeap] at hr
    cases hr; exact ⟨h1, h2⟩
  | cons c rest ih =>
    simp only [argLoopHeap] at hr
    by_cases hz : c = TRAILING_ZERO
    · rw [if_pos hz] at hr
      cases hr; exact ⟨h1, h2⟩
    rw [if_neg hz] at hr
    by_cases hs : isspace c = true
    · rw [if_pos hs] at hr
      split at hr
      · cases hr
      · rename_i argv hst
        refine ih _ ?_ ?_ hr
        · have := store_length _ _ _ _ hst
          simp only [this]
          split
          · rw [realloc_length]; omega
          · rw [h1]; omega
        · intro _; simp
    rw [if_neg hs] at hr
    by_cases hb : c = PIPE_BACKGROUND
    · rw [if_pos hb] at hr
      cases hr; exact ⟨h1, by simp⟩
    rw [if_neg hb] at hr
    by_cases hg : (!isgraph c) = true
    · rw [if_pos hg] at hr
      exact ih st h1 h2 hr
    rw [if_neg hg] at hr
    split at hr
    · cases hr
    · refine ih _ ?_ ?_ hr
      · exact h1
      · intro h; cases h

/-- With a block of `argv` of `argc` slots, or of one slot when `argc` is zero, the
statements after the loop of `prepareArguments` store outside the block, unless `argc` is
zero and the sentinel alone is stored. -/
theorem argEndHeap_eq (st : ArgHeap) (c : Nat) (h1 : st.argv.length = max 1 st.argc) :
    argEndHeap st c =
      if (!st.isLastSpace && c != PIPE_BACKGROUND) = false ∧ st.argc = 0 then
        Except.ok [some Pointer.null]
      else Except.error (Fault.outOfBounds (max 1 st.argc) (max 1 st.argc)) := by
  unfold argEndHeap
  by_cases h0 : st.argc = 0
  · have hl : st.argv.length = 1 := by rw [h1, h0]; rfl
    obtain ⟨x, hx⟩ : ∃ x, st.argv = [x] := by
      match h : st.argv, hl with
      | [x], _ => exact ⟨x, rfl⟩
    by_cases hc : (!st.isLastSpace && c != PIPE_BACKGROUND) = true
    · have hn : ¬((!st.isLastSpace && c != PIPE_BACKGROUND) = false ∧ st.argc = 0) := by
        intro h; rw [hc] at h; exact Bool.noConfusion h.1
      rw [if_pos hc, if_neg hn, h0, hx]
      simp [store, realloc]
    · have hp : (!st.isLastSpace && c != PIPE_BACKGROUND) = false ∧ st.argc = 0 :=
        ⟨by simpa using hc, h0⟩
      rw [if_neg hc, if_pos hp, h0, hx]
      simp [store]
  · have hl : st.argv.length = st.argc := by rw [h1]; omega
    have hm : max 1 st.argc = st.argc := by omega
    have hn : ¬((!st.isLastSpace && c != PIPE_BACKGROUND) = false ∧ st.argc = 0) :=
      fun h => h0 h.2
    rw [hm, if_neg hn]
    by_cases hc : (!st.isLastSpace && c != PIPE_BACKGROUND) = true
    · rw [if_pos hc, store_error _ _ _ (Nat.le_of_eq hl), hl]
    · rw [if_neg hc, store_error _ _ _ (Nat.le_of_eq hl), hl]

/-- Whatever the buffer and the memory the allocator hands out, `prepareArguments` returns
no argument vector that holds an argument: when it returns a vector at all, the vector is the
sentinel alone. -/
theorem prepareArgumentsHeap_returns_no_argument (heap : List Nat) (buffer b : Buffer)
    (argv : Block Pointer) (h : prepareArgumentsHeap heap buffer = Except.ok (some argv, b)) :
    argv = [some Pointer.null] := by
  unfold prepareArgumentsHeap at h
  split at h
  · cases h
  · split at h
    · cases h
    · split at h
      · cases h
      · rename_i r hr
        have hc := (argLoopHeap_capacity _ argHeapStart r rfl (by simp [argHeapStart]) hr).1
        have he := argEndHeap_eq r.1 r.2 hc
        by_cases hcond : (!r.1.isLastSpace && r.2 != PIPE_BACKGROUND) = false ∧ r.1.argc = 0
        · rw [if_pos hcond] at he
          rw [he] at h
          cases h; rfl
        · rw [if_neg hcond] at he
          rw [he] at h
          cases h

/-! ## Blocks in which characters are written -/

/-- A block from `malloc` is a block in which no character is written. -/
theorem malloc_eq_written (size : Nat) : (malloc size : Block Nat) = written [] size := by
  simp [malloc, written]

/-- `realloc` keeps the characters written when the new size has room for them. -/
theorem realloc_written (t : List Nat) (n m : Nat) (h2 : t.length ≤ m) :
    realloc (written t n) m = written t m := by
  have e : (List.map some t).length = t.length := List.length_map _ _
  simp only [realloc, written, List.take_append_eq_append_take, List.length_append,
    List.length_map, List.length_replicate, List.take_replicate]
  rw [List.take_of_length_le (by rw [e]; exact h2), List.append_assoc,
    List.append_replicate_replicate]
  congr 2
  simp only [Nat.min_def]
  split <;> omega

/-- A store right after the characters written adds a character. -/
theorem store_written (t : List Nat) (m c : Nat) (h : t.length < m) :
    store (written t m) t.length c = Except.ok (written (t ++ [c]) m) := by
  have e : (List.map some t).length = t.length := List.length_map _ _
  rw [store_ok]
  · congr 1
    simp only [written, List.map_append, List.map_cons, List.map_nil, List.length_append,
      List.length_cons, List.length_nil]
    obtain ⟨k, hk⟩ : ∃ k, m - t.length = k + 1 := ⟨m - t.length - 1, by omega⟩
    rw [hk, List.replicate_succ]
    have : m - (t.length + (0 + 1)) = k := by omega
    rw [this, ← e, List.set_append_right _ _ (Nat.le_refl _)]
    simp
  · simp only [written, List.length_append, List.length_map, List.length_replicate]
    omega

/-! ## `trim` on the heap and `trim` -/

/-- Reading a C string goes through the characters written that are not zero. -/
theorem stringFrom_written (heap : List Nat) (capacity : Nat) (t : List Nat)
    (rest : List (Option Nat)) (index : Nat) (h0 : ∀ c ∈ t, c ≠ 0) :
    stringFrom heap capacity (t.map some ++ rest) index =
      match stringFrom heap capacity rest (index + t.length) with
      | Except.error e => Except.error e
      | Except.ok s => Except.ok (t ++ s) := by
  induction t generalizing index with
  | nil =>
    simp only [List.map_nil, List.nil_append, List.length_nil, Nat.add_zero]
    cases stringFrom heap capacity rest index <;> rfl
  | cons c t ih =>
    have hc : c ≠ 0 := h0 c (List.mem_cons_self _ _)
    simp only [List.map_cons, List.cons_append, stringFrom, load, Option.getD_some,
      TRAILING_ZERO, if_neg hc, List.append_eq]
    rw [ih (index + 1) (fun x hx => h0 x (List.mem_cons_of_mem _ hx))]
    have : index + 1 + t.length = index + (c :: t).length := by simp; omega
    rw [this]
    cases stringFrom heap capacity rest (index + (c :: t).length) <;> rfl

/-- With zeroed memory from the allocator, a block in which characters other than zero are
written, with room for one more, reads as these characters. -/
theorem string_written (t : List Nat) (m : Nat) (h0 : ∀ c ∈ t, c ≠ 0) (hm : t.length < m) :
    string [] (written t m) = Except.ok t := by
  obtain ⟨k, hk⟩ : ∃ k, m - t.length = k + 1 := ⟨m - t.length - 1, by omega⟩
  simp only [string, written, hk, List.replicate_succ]
  rw [stringFrom_written _ _ _ _ _ h0]
  simp [stringFrom, load]

/-- The characters kept by the loop of `trim` are not zero. -/
theorem trimLoop_ne_zero (l : List Nat) (i : Nat) (b : Bool) (acc : List Nat)
    (h : ∀ c ∈ acc, c ≠ 0) : ∀ c ∈ trimLoop l i b acc, c ≠ 0 := by
  induction l generalizing i b acc with
  | nil => simpa [trimLoop] using h
  | cons c rest ih =>
    have hadd : c ≠ 0 → ∀ x ∈ acc ++ [c], x ≠ 0 := by
      intro hc x hx
      rcases List.mem_append.1 hx with hx | hx
      · exact h x hx
      · rw [List.mem_singleton.1 hx]; exact hc
    simp only [trimLoop]
    by_cases hz : c = TRAILING_ZERO
    · rw [if_pos hz]; exact h
    rw [if_neg hz]
    split
    · split
      · exact ih _ _ _ h
      · split
        · exact ih _ _ _ h
        · exact ih _ _ _ (hadd hz)
    · exact ih _ _ _ (hadd hz)

/-- The loop of `trim` on the heap writes the characters that `trimLoop` keeps and never
stores outside the block, which always has room for one more character. -/
theorem trimLoopHeap_written (l : List Nat) (i : Nat) (b : Bool) (acc : List Nat) (n : Nat)
    (hn : acc.length < n) :
    ∃ m, (trimLoop l i b acc).length < m ∧
      trimLoopHeap l i b (written acc n) acc.length
        = Except.ok (written (trimLoop l i b acc) m) := by
  induction l generalizing i b acc n with
  | nil => exact ⟨n, by simpa [trimLoop] using hn, by simp [trimLoopHeap, trimLoop]⟩
  | cons c rest ih =>
    have hstore : store (realloc (written acc n) (SIZEOF_POINTER * (acc.length + 1))) acc.length c
        = Except.ok (written (acc ++ [c]) (SIZEOF_POINTER * (acc.length + 1))) := by
      rw [realloc_written _ _ _ (by simp only [SIZEOF_POINTER]; omega)]
      exact store_written _ _ _ (by simp only [SIZEOF_POINTER]; omega)
    have hl : acc.length + 1 = (acc ++ [c]).length := by simp
    have hroom : (acc ++ [c]).length < SIZEOF_POINTER * (acc ++ [c]).length := by
      simp only [SIZEOF_POINTER, List.length_append, List.length_cons, List.length_nil]; omega
    simp only [trimLoop, trimLoopHeap]
    by_cases hz : c = TRAILING_ZERO
    · rw [if_pos hz, if_pos hz]; exact ⟨n, hn, rfl⟩
    rw [if_neg hz, if_neg hz]
    split
    · split
      · exact ih _ _ _ _ hn
      · split
        · exact ih _ _ _ _ hn
        · rw [hstore]
          simp only []
          rw [hl]
          exact ih _ _ _ _ hroom
    · rw [hstore]
      simp only []
      rw [hl]
      exact ih _ _ _ _ hroom

/-- With zeroed memory from the allocator, `trim` on the heap leaves the buffer that `trim`
leaves when only the characters are followed. -/
theorem trimHeap_zeroed (buffer : Buffer) (hlen : buffer.length ≤ MAX_BUFFER_SIZE) :
    trimHeap [] buffer = Except.ok (trim buffer) := by
  obtain ⟨m, hm, e⟩ := trimLoopHeap_written buffer 0 false [] SIZEOF_POINTER (by decide)
  rw [← malloc_eq_written] at e
  have e2 : trimLoopHeap buffer 0 false (malloc SIZEOF_POINTER) 0
      = Except.ok (written (trimLoop buffer 0 false []) m) := e
  unfold trimHeap
  rw [e2]
  simp only []
  rw [string_written _ _ (trimLoop_ne_zero buffer 0 false [] (by simp)) hm]
  simp only []
  rw [if_pos (Nat.le_trans (trimLoop_length buffer 0 false) hlen)]
  rfl

/-! ## `prepareArguments` on the heap and `prepareArguments` -/

/-- At whitespace the loop of `prepareArguments` stores the pointer to the current argument
inside the block of `argv`. -/
theorem onHeap_store (st : ArgState) :
    store (if 0 < st.onHeap.argc then realloc st.onHeap.argv (st.onHeap.argc + 1)
        else st.onHeap.argv) st.onHeap.argc (Pointer.to st.onHeap.argument)
      = Except.ok (ArgState.onHeap
          { argv := st.argv ++ [some st.argument], argument := [], isLastSpace := true }).argv := by
  by_cases h : st.argv = []
  · simp [ArgState.onHeap, h, store, malloc]
  · have hpos : 0 < st.argv.length := List.length_pos.2 h
    simp only [ArgState.onHeap, if_neg h, if_pos hpos, List.append_eq_nil, List.cons_ne_nil,
      and_false, if_false, List.map_append, List.map_cons, List.map_nil]
    rw [store_ok]
    · congr 1
      simp only [realloc, List.length_map, Nat.add_sub_cancel_left, List.replicate_succ,
        List.replicate_zero]
      rw [List.take_of_length_le (by simp)]
      have e : st.argv.length = (List.map (fun a => some (match a with
        | some t => Pointer.to (argumentBlock t)
        | none => Pointer.null)) st.argv).length := by simp
      rw [e, List.set_append_right _ _ (Nat.le_refl _)]
      simp
    · rw [realloc_length]; omega

/-- The loop of `prepareArguments` on the heap never stores outside a block, and the
pointers and characters it stores are those that `argLoop` follows. -/
theorem argLoopHeap_onHeap (l : List Nat) (st : ArgState) :
    argLoopHeap l st.onHeap = Except.ok ((argLoop l st).1.onHeap, (argLoop l st).2) := by
  induction l generalizing st with
  | nil => simp [argLoopHeap, argLoop]
  | cons c rest ih =>
    simp only [argLoopHeap, argLoop]
    by_cases hz : c = TRAILING_ZERO
    · rw [if_pos hz, if_pos hz]
    rw [if_neg hz, if_neg hz]
    by_cases hs : isspace c = true
    · rw [if_pos hs, if_pos hs, onHeap_store]
      simp only []
      rw [← ih]
      congr 1
      simp [ArgState.onHeap, argumentBlock, malloc, written]
    rw [if_neg hs, if_neg hs]
    by_cases hb : c = PIPE_BACKGROUND
    · rw [if_pos hb, if_pos hb]
      rfl
    rw [if_neg hb, if_neg hb]
    by_cases hg : (!isgraph c) = true
    · rw [if_pos hg, if_pos hg]
      exact ih st
    rw [if_neg hg, if_neg hg]
    have hst : store st.onHeap.argument (st.onHeap.j - 1) c
        = Except.ok (written (st.argument ++ [c]) (SIZEOF_POINTER * (st.argument.length + 1))) := by
      simp only [ArgState.onHeap, argumentBlock, Nat.add_sub_cancel]
      exact store_written _ _ _ (by simp only [SIZEOF_POINTER]; omega)
    rw [hst]
    simp only []
    rw [← ih]
    congr 1
    simp only [ArgState.onHeap, argumentBlock, List.length_append, List.length_cons,
      List.length_nil]
    rw [realloc_written _ _ _ (by simp only [SIZEOF_POINTER, List.length_append,
      List.length_cons, List.length_nil]; omega)]

/-- The variables at the start of the loop of `prepareArguments`. -/
theorem onHeap_start :
    ArgState.onHeap { argv := [], argument := [], isLastSpace := false } = argHeapStart := by
  simp [ArgState.onHeap, argHeapStart, argumentBlock, malloc, written]

/-- The block of `argv` that goes with the strings assigned so far has one slot for each of
them, and one slot when there is none. -/
theorem onHeap_capacity (st : ArgState) :
    st.onHeap.argv.length = max 1 st.onHeap.argc := by
  by_cases h : st.argv = []
  · simp [ArgState.onHeap, h, malloc]
  · have hpos : 0 < st.argv.length := List.length_pos.2 h
    simp only [ArgState.onHeap, if_neg h, List.length_map]
    omega

/-- With zeroed memory from the allocator, `prepareArguments` on the heap returns `NULL`
where `prepareArguments` does when only the characters are followed, returns the vector
made of the sentinel where that one holds the sentinel alone, and in every other case
stores into `argv` outside its block. -/
theorem prepareArgumentsHeap_zeroed (buffer : Buffer) (hlen : buffer.length ≤ MAX_BUFFER_SIZE) :
    ((prepareArguments buffer).1 = none ∧
      prepareArgumentsHeap [] buffer = Except.ok (none, (prepareArguments buffer).2)) ∨
    ((prepareArguments buffer).1 = some [none] ∧
      prepareArgumentsHeap [] buffer
        = Except.ok (some [some Pointer.null], (prepareArguments buffer).2)) ∨
    (∃ argv n, (prepareArguments buffer).1 = some argv ∧ argv ≠ [none] ∧ 0 < n ∧
      prepareArgumentsHeap [] buffer = Except.error (Fault.outOfBounds n n)) := by
  unfold prepareArgumentsHeap prepareArguments
  rw [trimHeap_zeroed buffer hlen]
  simp only []
  by_cases hv : (!isBufferValid (trim buffer)) = true
  · left
    rw [if_pos hv, if_pos hv]
    exact ⟨rfl, rfl⟩
  rw [if_neg hv, if_neg hv, ← onHeap_start, argLoopHeap_onHeap]
  simp only []
  rw [argEndHeap_eq _ _ (onHeap_capacity _)]
  generalize argLoop (trim buffer) { argv := [], argument := [], isLastSpace := false } = r
  have hsp : r.1.onHeap.isLastSpace = r.1.isLastSpace := rfl
  have hargc : r.1.onHeap.argc = r.1.argv.length := rfl
  rw [hsp, hargc]
  by_cases hc : (!r.1.isLastSpace && r.2 != PIPE_BACKGROUND) = true
  · right; right
    have hn : ¬((!r.1.isLastSpace && r.2 != PIPE_BACKGROUND) = false ∧ r.1.argv.length = 0) := by
      intro h; rw [hc] at h; exact Bool.noConfusion h.1
    rw [if_pos hc, if_neg hn]
    refine ⟨_, max 1 r.1.argv.length, rfl, ?_, by omega, rfl⟩
    intro h
    have := congrArg List.length h
    simp at this
  · rw [if_neg hc]
    by_cases h0 : r.1.argv.length = 0
    · right; left
      have hp : (!r.1.isLastSpace && r.2 != PIPE_BACKGROUND) = false ∧ r.1.argv.length = 0 :=
        ⟨by simpa using hc, h0⟩
      rw [if_pos hp]
      have : r.1.argv = [] := List.length_eq_zero.1 h0
      rw [this]
      exact ⟨rfl, rfl⟩
    · right; right
      have hn : ¬((!r.1.isLastSpace && r.2 != PIPE_BACKGROUND) = false ∧ r.1.argv.length = 0) :=
        fun h => h0 h.2
      rw [if_neg hn]
      refine ⟨_, max 1 r.1.argv.length, rfl, ?_, by omega, rfl⟩
      intro h
      have := congrArg List.length h
      simp at this
      exact h0 (List.length_eq_zero.2 this)

/-- On every line of printable characters and whitespace that fits the buffer, has a token
and has no `&`, `prepareArguments` stores into `argv` outside its block, even with zeroed
memory from the allocator. -/
theorem prepareArgumentsHeap_text (text : List Nat) (hlen : text.length < 513)
    (hl : ∀ c ∈ text, (isspace c = true ∨ isgraph c = true) ∧ c ≠ PIPE_BACKGROUND)
    (ht : tokens text ≠ []) :
    ∃ n, 0 < n ∧
      prepareArgumentsHeap [] (lineBuffer text) = Except.error (Fault.outOfBounds n n) := by
  have hd := (prepareArguments_text text hlen hl ht).1
  have hb : (lineBuffer text).length ≤ MAX_BUFFER_SIZE := by
    rw [lineBuffer_eq]
    simp only [List.length_append, List.length_replicate, MAX_BUFFER_SIZE]
    omega
  rcases prepareArgumentsHeap_zeroed (lineBuffer text) hb with ⟨h, _⟩ | ⟨h, _⟩ | ⟨_, n, _, _, hn, h⟩
  · rw [hd] at h; cases h
  · rw [hd] at h
    have := congrArg (fun o => (o.getD []).length) h
    simp at this
    exact absurd (this) (by simpa using ht)
  · exact ⟨n, hn, h⟩

/-- The string that `execvp` reads from the block of an argument is the argument only when
the allocator left a zero byte in the cell after its last character: the code stores none
there. -/
theorem string_argumentBlock (heap : List Nat) (t : List Nat) (h0 : ∀ c ∈ t, c ≠ 0) :
    string heap (argumentBlock t) = Except.ok t ↔ heap.getD t.length 0 = 0 := by
  obtain ⟨k, hk⟩ : ∃ k, SIZEOF_POINTER * (t.length + 1) - t.length = k + 1 :=
    ⟨SIZEOF_POINTER * (t.length + 1) - t.length - 1, by simp only [SIZEOF_POINTER]; omega⟩
  simp only [string, argumentBlock, written, hk, List.replicate_succ]
  rw [stringFrom_written _ _ _ _ _ h0]
  simp only [Nat.zero_add, stringFrom, load, Option.getD_none, TRAILING_ZERO]
  by_cases h : heap.getD t.length 0 = 0
  · rw [if_pos h]
    exact ⟨fun _ => h, fun _ => by simp⟩
  · rw [if_neg h]
    constructor
    · intro e
      split at e
      · cases e
      · rename_i s hs
        split at hs
        · cases hs
        · cases hs
          have := congrArg List.length (Except.ok.inj e)
          simp at this
    · intro e; exact absurd e h

/-! ## `getFilename` on the heap and `getFilename` -/

/-- Once the name has begun, the second loop of `getFilename` on the heap never stores
outside the block and writes the characters that `scanName` follows; `size` is their
number. -/
theorem scanNameHeap_name (l : List Nat) (name : List Nat) :
    scanNameHeap l false (some (written name (SIZEOF_POINTER * name.length))) name.length
      = Except.ok
        (((scanName l false (some name)).1.map (fun n => written n (SIZEOF_POINTER * n.length)),
          ((scanName l false (some name)).1.getD []).length),
          (scanName l false (some name)).2) := by
  induction l generalizing name with
  | nil => simp [scanNameHeap, scanName]
  | cons c rest ih =>
    simp only [scanNameHeap, scanName]
    by_cases hz : (c = TRAILING_ZERO || c = NEW_LINE) = true
    · rw [if_pos hz, if_pos hz]; rfl
    rw [if_neg hz, if_neg hz]
    by_cases hs : isspace c = true
    · rw [if_pos hs, if_pos hs]
      simp
    rw [if_neg hs, if_neg hs]
    have hst : store (if false = true then malloc SIZEOF_POINTER
          else realloc ((some (written name (SIZEOF_POINTER * name.length))).getD [])
            (SIZEOF_POINTER * (name.length + 1))) name.length c
        = Except.ok (written (name ++ [c]) (SIZEOF_POINTER * (name ++ [c]).length)) := by
      simp only [Bool.false_eq_true, if_false, Option.getD_some, List.length_append,
        List.length_cons, List.length_nil]
      rw [realloc_written _ _ _ (by simp only [SIZEOF_POINTER]; omega)]
      exact store_written _ _ _ (by simp only [SIZEOF_POINTER]; omega)
    rw [hst]
    simp only []
    have hl : name.length + 1 = (name ++ [c]).length := by simp
    rw [hl, ih (name ++ [c])]
    rfl

/-- Before the name, the second loop of `getFilename` on the heap does what `scanName`
follows. -/
theorem scanNameHeap_skip (l : List Nat) :
    scanNameHeap l true none 0
      = Except.ok
        (((scanName l true none).1.map (fun n => written n (SIZEOF_POINTER * n.length)),
          ((scanName l true none).1.getD []).length),
          (scanName l true none).2) := by
  induction l with
  | nil => simp [scanNameHeap, scanName]
  | cons c rest ih =>
    simp only [scanNameHeap, scanName]
    by_cases hz : (c = TRAILING_ZERO || c = NEW_LINE) = true
    · rw [if_pos hz, if_pos hz]; rfl
    rw [if_neg hz, if_neg hz]
    by_cases hs : isspace c = true
    · rw [if_pos hs, if_pos hs]
      simp only [if_true]
      rw [ih]
    · rw [if_neg hs, if_neg hs]
      have hst : store (malloc SIZEOF_POINTER) 0 c
          = Except.ok (written [c] (SIZEOF_POINTER * [c].length)) := rfl
      simp only [if_true]
      rw [hst]
      simp only []
      have := scanNameHeap_name rest [c]
      simp only [List.length_cons, List.length_nil] at this
      simp only [List.length_cons, List.length_nil, Option.getD_none, List.nil_append]
      rw [this]

/-- The statements after the second loop of `getFilename` store the terminating byte inside
the block, one cell after the cell that follows the last character of the name. -/
theorem nameEndHeap_written (name : Option (List Nat)) :
    nameEndHeap (name.map (fun n => written n (SIZEOF_POINTER * n.length)))
        (name.getD []).length
      = Except.ok (name.map nameBlock) := by
  cases name with
  | none => rfl
  | some n =>
    simp only [Option.map_some', Option.getD_some, nameEndHeap]
    rw [realloc_written _ _ _ (by simp only [SIZEOF_POINTER]; omega), store_ok]
    · rfl
    · simp only [written, List.length_append, List.length_map, List.length_replicate,
        SIZEOF_POINTER]
      omega

/-- `getFilename` on the heap never stores outside a block: it leaves the buffer that
`getFilename` leaves when only the characters are followed, and returns `NULL` or the block
in which the characters of that name are followed by a cell in which nothing is stored and
by the terminating byte. -/
theorem getFilenameHeapFrom_eq (p : Nat) (l : List Nat) :
    getFilenameHeapFrom p l
      = Except.ok ((getFilenameFrom p l).1.map nameBlock, (getFilenameFrom p l).2) := by
  induction l with
  | nil => rfl
  | cons c rest ih =>
    simp only [getFilenameHeapFrom, getFilenameFrom]
    by_cases hz : (c = TRAILING_ZERO || c = NEW_LINE) = true
    · rw [if_pos hz, if_pos hz]; rfl
    rw [if_neg hz, if_neg hz]
    by_cases hp : c = p
    · rw [if_pos hp, if_pos hp, scanNameHeap_skip]
      simp only []
      rw [nameEndHeap_written]
    · rw [if_neg hp, if_neg hp, ih]

/-- The cells of the block `getFilename` builds for a name. -/
theorem nameBlock_eq (name : List Nat) :
    nameBlock name = name.map some ++ none :: some TRAILING_ZERO ::
      List.replicate (SIZEOF_POINTER * (name.length + 1) - (name.length + 2)) none := by
  have e : (List.map some name).length = name.length := List.length_map _ _
  obtain ⟨k, hk⟩ : ∃ k, SIZEOF_POINTER * (name.length + 1) - name.length = k + 2 :=
    ⟨SIZEOF_POINTER * (name.length + 1) - name.length - 2, by simp only [SIZEOF_POINTER]; omega⟩
  have hk2 : SIZEOF_POINTER * (name.length + 1) - (name.length + 2) = k := by omega
  simp only [nameBlock, written, hk, hk2, List.replicate_succ]
  have : name.length + 1 = (List.map some name).length + 1 := by rw [e]
  rw [this, List.set_append_right _ _ (by omega)]
  simp

/-- The file name that `open` reads from the block `getFilename` returns is the name
followed by the byte the allocator left in the cell after it, unless that byte is zero. -/
theorem string_nameBlock (heap : List Nat) (name : List Nat) (h0 : ∀ c ∈ name, c ≠ 0) :
    string heap (nameBlock name) = Except.ok
      (if heap.getD name.length 0 = 0 then name else name ++ [heap.getD name.length 0]) := by
  rw [string, nameBlock_eq, stringFrom_written _ _ _ _ _ h0]
  simp only [Nat.zero_add, stringFrom, load, Option.getD_none, TRAILING_ZERO, Option.getD_some,
    if_true]
  by_cases h : heap.getD name.length 0 = 0
  · rw [if_pos h, if_pos h]
    simp
  · rw [if_neg h, if_neg h]

/-- The second loop of `getFilename` leaves the length of the buffer as it is. -/
theorem scanName_length (l : List Nat) (skip : Bool) (filename : Option (List Nat)) :
    (scanName l skip filename).2.length = l.length := by
  induction l generalizing skip filename with
  | nil => rfl
  | cons c rest ih =>
    simp only [scanName]
    split
    · rfl
    · split
      · split
        · simp [ih]
        · rfl
      · simp [ih]

/-- The function `getFilename` leaves the length of the buffer as it is. -/
theorem getFilenameFrom_length (p : Nat) (l : List Nat) :
    (getFilenameFrom p l).2.length = l.length := by
  induction l with
  | nil => rfl
  | cons c rest ih =>
    simp only [getFilenameFrom]
    split
    · rfl
    · split
      · simp [scanName_length]
      · simp [ih]

/-- `getFilename` on the heap, in terms of `getFilename` when only the characters are
followed. -/
theorem getFilenameHeap_eq (pipe : Pipe) (buffer : Buffer) :
    getFilenameHeap pipe buffer
      = Except.ok ((getFilename pipe buffer).1.map nameBlock, (getFilename pipe buffer).2) :=
  getFilenameHeapFrom_eq pipe.char buffer

/-- On a line with both markers, each followed by a file name, as in
`startJobParse_redirectionLine`: each name is the whitespace-delimited token that follows its
marker; each call of `getFilename` on the heap returns the block in which the characters of
the name are followed by a cell in which nothing is stored; and `prepareArguments`, even with
zeroed memory from the allocator, stores into `argv` outside its block. -/
theorem startJob_heap_redirectionLine (first second : Pipe) (hfs : first ≠ second)
    (a s1 f1 b s2 f2 c : List Nat)
    (ha : plainText a = true) (hs1 : blankText s1 = true) (hf1 : nameText f1 = true)
    (hb : plainText b = true) (hb0 : b ≠ []) (hb1 : endsToken b = true)
    (hs2 : blankText s2 = true) (hf2 : nameText f2 = true)
    (hc : plainText c = true) (hc1 : endsToken c = true)
    (hcmd : tokens a ++ tokens b ++ tokens c ≠ [])
    (hlen : (redirectionLine first second a s1 f1 b s2 f2 c).length < MAX_LINE_SIZE) :
    tokenAfter first.char (redirectionLine first second a s1 f1 b s2 f2 c) = some f1 ∧
    tokenAfter second.char (redirectionLine first second a s1 f1 b s2 f2 c) = some f2 ∧
    getFilenameHeap Pipe.output (lineBuffer (redirectionLine first second a s1 f1 b s2 f2 c))
      = Except.ok (some (nameBlock (if first = Pipe.output then f1 else f2)),
          (getFilename Pipe.output
            (lineBuffer (redirectionLine first second a s1 f1 b s2 f2 c))).2) ∧
    getFilenameHeap Pipe.input (getFilename Pipe.output
        (lineBuffer (redirectionLine first second a s1 f1 b s2 f2 c))).2
      = Except.ok (some (nameBlock (if first = Pipe.input then f1 else f2)),
          (getFilename Pipe.input (getFilename Pipe.output
            (lineBuffer (redirectionLine first second a s1 f1 b s2 f2 c))).2).2) ∧
    ∃ n, 0 < n ∧
      prepareArgumentsHeap [] (getFilename Pipe.input (getFilename Pipe.output
        (lineBuffer (redirectionLine first second a s1 f1 b s2 f2 c))).2).2
        = Except.error (Fault.outOfBounds n n) := by
  obtain ⟨ho, hi, hargs, _⟩ := startJobParse_redirectionLine first second hfs a s1 f1 b s2 f2 c
    ha hs1 hf1 hb hb0 hb1 hs2 hf2 hc hc1 hcmd hlen
  simp only [startJobParse] at ho hi hargs
  have hA := plainText_spec a ha
  have hB := plainText_spec b hb
  have hS1 := blankText_spec s1 hs1
  have hS2 := blankText_spec s2 hs2
  obtain ⟨hF1n, hF1⟩ := nameText_spec f1 hf1
  obtain ⟨hF2n, hF2⟩ := nameText_spec f2 hf2
  have hm : ∀ p : Pipe, ∀ x : Nat, x ≠ 60 → x ≠ 62 → x ≠ p.char := by
    intro p x h1 h2; cases p
    · exact h1
    · exact h2
  have hends : ∀ r : List Nat, endsToken (b ++ r) = true := by
    intro r
    obtain ⟨x, b', rfl⟩ := List.exists_cons_of_ne_nil hb0
    simpa [endsToken] using hb1
  refine ⟨?_, ?_, ?_, ?_, ?_⟩
  · exact tokenAfter_name first.char a s1 f1 _
      (fun x hx => hm first x (hA x hx).2.2.2.1 (hA x hx).2.2.2.2.1)
      (fun x hx => (hS1 x hx).1) hF1n (fun x hx => (hF1 x hx).1) (hends _)
  · have e : redirectionLine first second a s1 f1 b s2 f2 c =
        (a ++ first.char :: (s1 ++ (f1 ++ b))) ++ second.char :: (s2 ++ (f2 ++ c)) := by
      simp [redirectionLine]
    rw [e]
    refine tokenAfter_name second.char _ s2 f2 c ?_
      (fun x hx => (hS2 x hx).1) hF2n (fun x hx => (hF2 x hx).1) hc1
    intro x hx
    simp only [List.mem_append, List.mem_cons] at hx
    rcases hx with hx | hx | hx | hx | hx
    · exact hm second x (hA x hx).2.2.2.1 (hA x hx).2.2.2.2.1
    · rw [hx]; cases first <;> cases second <;> first | exact absurd rfl hfs | decide
    · exact hm second x (hS1 x hx).2.2.2.1 (hS1 x hx).2.2.2.2.1
    · exact hm second x (hF1 x hx).2.2.2.1 (hF1 x hx).2.2.2.2.1
    · exact hm second x (hB x hx).2.2.2.1 (hB x hx).2.2.2.2.1
  · rw [getFilenameHeap_eq, ho]; rfl
  · rw [getFilenameHeap_eq, hi]; rfl
  · have hbuf : (getFilename Pipe.input (getFilename Pipe.output
        (lineBuffer (redirectionLine first second a s1 f1 b s2 f2 c))).2).2.length
        ≤ MAX_BUFFER_SIZE := by
      simp only [getFilename, getFilenameFrom_length, lineBuffer_eq, List.length_append,
        List.length_replicate, MAX_BUFFER_SIZE]
      simp only [MAX_LINE_SIZE] at hlen
      omega
    generalize tokens a ++ tokens b ++ tokens c = t at hargs hcmd
    rcases prepareArgumentsHeap_zeroed _ hbuf with ⟨h, _⟩ | ⟨h, _⟩ | ⟨_, n, _, _, hn, h⟩
    · rw [hargs] at h; cases h
    · rw [hargs] at h
      have := congrArg (fun o => (o.getD []).length) h
      simp at this
      exact absurd this (by simpa using hcmd)
    · exact ⟨n, hn, h⟩

/-! ## Claim C1: the argument vector of a plain line -/

/-- Claim C1, the code at the failing input: the line `ls -la` has the two tokens `ls` and
`-la`.  With zeroed memory from the allocator `trim` leaves the line as it is and the loop of
`prepareArguments` stores `l`, `s` in a block of 24 bytes, puts it in `argv[0]`, the only
slot of `argv`, and stores `-`, `l`, `a` in a block of 32 bytes: no string receives a
terminating byte.  The statement `argv[argc] = argument` after the loop then goes to the
slot 1 of a block of one slot, so that `prepareArguments` does not return the vector
`ls`, `-la`, sentinel; the same holds on `ls`, on `abc def` and, at the slot 3 of three, on
`cp -rf a b`.  With memory that was in use before, the string in `argv[0]` reads
`ls[[[[[[`, the other one `-la[[[[[`, and `trim` itself leaves `ls -la[[` in the buffer. -/
theorem prepareArguments_heap_ls_la :
    tokens (str "ls -la") = [str "ls", str "-la"] ∧
    trimHeap [] (lineBuffer (str "ls -la")) = Except.ok (lineBuffer (str "ls -la")) ∧
    argLoopHeap (lineBuffer (str "ls -la")) argHeapStart = Except.ok
      (ArgHeap.mk [some (Pointer.to (written (str "ls") 24))] 1 (written (str "-la") 32) 4 false,
        TRAILING_ZERO) ∧
    argEndHeap
        (ArgHeap.mk [some (Pointer.to (written (str "ls") 24))] 1 (written (str "-la") 32) 4 false)
        TRAILING_ZERO = Except.error (Fault.outOfBounds 1 1) ∧
    prepareArgumentsHeap [] (lineBuffer (str "ls -la")) = Except.error (Fault.outOfBounds 1 1) ∧
    prepareArgumentsHeap [] (lineBuffer (str "ls")) = Except.error (Fault.outOfBounds 1 1) ∧
    prepareArgumentsHeap [] (lineBuffer (str "abc def")) = Except.error (Fault.outOfBounds 1 1) ∧
    prepareArgumentsHeap [] (lineBuffer (str "cp -rf a b"))
      = Except.error (Fault.outOfBounds 3 3) ∧
    string recycled (written (str "ls") 24) = Except.ok (str "ls[[[[[[") ∧
    string recycled (written (str "-la") 32) = Except.ok (str "-la[[[[[") ∧
    trimHeap recycled (lineBuffer (str "ls -la")) = Except.ok (lineBuffer (str "ls -la[[")) := by
  set_option maxRecDepth 100000 in
  refine ⟨?_, ?_, ?_, ?_, ?_, ?_, ?_, ?_, ?_, ?_, ?_⟩ <;> decide

/-! ## Claim C2: both redirections -/

/-- Claim C2, the code at the failing input: on the line `sort < in.txt > out.txt` the token
that follows `>` is `out.txt` and the one that follows `<` is `in.txt`.  `getFilename` stores
the seven characters of `out.txt` in the cells 0 to 6 of its block and the terminating byte
in the cell 8: nothing is stored in the cell 7; in the same way the six characters of
`in.txt` are followed by a cell in which nothing is stored.  With zeroed memory from the
allocator the names read `out.txt` and `in.txt`; with memory that was in use before they
read `out.txt[` and `in.txt[` (and `out[` for the name `out` of the line `ls > out < in`).
The buffer then holds `sort` and blanks: with zeroed memory `prepareArguments` stores the
sentinel in the slot 1 of a block of one slot and does not return the vector `sort`,
sentinel; with memory that was in use before `trim` leaves `sort [[[` in the buffer, a
second token that the line does not have. -/
theorem getFilename_heap_sort_in_out :
    tokenAfter PIPE_OUTPUT (str "sort < in.txt > out.txt") = some (str "out.txt") ∧
    tokenAfter PIPE_INPUT (str "sort < in.txt > out.txt") = some (str "in.txt") ∧
    getFilenameHeap Pipe.output (lineBuffer (str "sort < in.txt > out.txt")) = Except.ok
      (some ((written (str "out.txt") 64).set 8 (some TRAILING_ZERO)),
        lineBuffer (str "sort < in.txt" ++ List.replicate 10 BLANK)) ∧
    getFilenameHeap Pipe.input (lineBuffer (str "sort < in.txt" ++ List.replicate 10 BLANK))
      = Except.ok (some ((written (str "in.txt") 56).set 7 (some TRAILING_ZERO)),
        lineBuffer (str "sort" ++ List.replicate 19 BLANK)) ∧
    (written (str "out.txt") 64).set 8 (some TRAILING_ZERO)
      = (str "out.txt").map some ++ none :: some TRAILING_ZERO :: List.replicate 55 none ∧
    string [] ((written (str "out.txt") 64).set 8 (some TRAILING_ZERO))
      = Except.ok (str "out.txt") ∧
    string [] ((written (str "in.txt") 56).set 7 (some TRAILING_ZERO))
      = Except.ok (str "in.txt") ∧
    string recycled ((written (str "out.txt") 64).set 8 (some TRAILING_ZERO))
      = Except.ok (str "out.txt[") ∧
    string recycled ((written (str "in.txt") 56).set 7 (some TRAILING_ZERO))
      = Except.ok (str "in.txt[") ∧
    (getFilenameHeap Pipe.output (lineBuffer (str "ls > out < in"))).map
        (fun r => r.1.map (string recycled)) = Except.ok (some (Except.ok (str "out["))) ∧
    prepareArgumentsHeap [] (lineBuffer (str "sort" ++ List.replicate 19 BLANK))
      = Except.error (Fault.outOfBounds 1 1) ∧
    trimHeap recycled (lineBuffer (str "sort" ++ List.replicate 19 BLANK))
      = Except.ok (lineBuffer (str "sort [[[")) := by
  set_option maxRecDepth 100000 in
  refine ⟨?_, ?_, ?_, ?_, ?_, ?_, ?_, ?_, ?_, ?_, ?_, ?_⟩ <;> decide

/-! ## Claim C3: the background marker -/

/-- Claim C3, the code at the failing input: on the line `sleep 10&` the text before the
marker has the two tokens `sleep` and `10` and the job is a background job, but the argument
vector that `prepareArguments` builds holds `sleep` only: the token that the marker follows
directly is lost.  On `sleep 10 &`, with a space before the marker, both tokens are kept. -/
theorem prepareArguments_drops_token_before_marker :
    tokens (str "sleep 10") = [str "sleep", str "10"] ∧
    isBackgroundJob (prepareArguments (lineBuffer (str "sleep 10&"))).2 = true ∧
    (prepareArguments (lineBuffer (str "sleep 10&"))).1 = some [some (str "sleep"), none] ∧
    (prepareArguments (lineBuffer (str "sleep 10 &"))).1
      = some [some (str "sleep"), some (str "10"), none] := by
  set_option maxRecDepth 100000 in decide

/-! ## Claim C4: the exit command -/

/-- Claim C4, refuted as stated: the first whitespace-delimited token of the line ` exit`,
which starts with a space, is `exit`, but a cycle of the Executor leaves the terminate flag
unset and forks a child for the command `exit`. -/
theorem run_leading_space_exit_counterexample :
    firstToken (str " exit") = some EXIT ∧
    (simulateShell [str " exit\n"] main).map
        (fun r => ((run ⟨1234, 1234⟩ r.1).isFinished, (run ⟨1234, 1234⟩ r.1).jobs))
      = some (false, [Job.mk none none false [some EXIT, none]]) := by
  set_option maxRecDepth 100000 in decide

/-- Claim C4, as amended: for every line of fewer than `MAX_LINE_SIZE` characters without a
zero byte, read in a non-terminated shell, one cycle of the Executor sets `isFinished` if
and only if the first whitespace-delimited token of the line is `exit` and the line starts
with it, no whitespace before it; it then starts no job.  Every other non-empty line leaves
the flag unset and is handed to `startJob`. -/
theorem run_sets_isFinished_iff (line : List Nat) (hlen : line.length < MAX_LINE_SIZE)
    (h0 : 0 ∉ line) (env : Env) (s : State) (hs : s.isFinished = false)
    (stream : List (List Nat)) :
    ∃ s1, simulateShell ((line ++ [NEW_LINE]) :: stream) s = some (s1, stream) ∧
      ((run env s1).isFinished = true ↔
        (firstToken line = some EXIT ∧ ∀ c, line.head? = some c → isspace c = false)) ∧
      ((run env s1).isFinished = true → (run env s1).jobs = s.jobs) ∧
      ((run env s1).isFinished = false → line ≠ [] →
        run env s1 = { startJob env s1 with isProcessRunning := false }) := by
  have hlen' : line.length < 513 := Nat.lt_succ_of_lt hlen
  refine ⟨_, simulateShell_line line stream s hlen, ?_⟩
  rw [firstToken_exit_iff line, ← isExit_lineBuffer line hlen' h0]
  by_cases hE : isExit (lineBuffer line) = true
  · rw [run_exit env _ rfl hE]
    exact ⟨by simp [hE], fun _ => rfl, fun h => by simp at h⟩
  · have hE' : isExit (lineBuffer line) = false := by simpa using hE
    obtain ⟨h1, _, _⟩ := run_not_exit env
      { s with buffer := lineBuffer line, isInputTooLong := false, isProcessRunning := true }
      rfl hE'
    refine ⟨?_, ?_, ?_⟩
    · rw [h1]; simp [hs, hE']
    · intro h; rw [h1] at h; simp [hs] at h
    · intro _ hne
      exact run_startJob env _ rfl hE' (strlen_lineBuffer_pos line h0 hne)

/-- Witness of `run_sets_isFinished_iff`: the lines `exit now` and `exit`. -/
theorem run_sets_isFinished_iff_witness :
    (∃ s1, simulateShell ((str "exit now" ++ [NEW_LINE]) :: []) main = some (s1, []) ∧
      ((run ⟨1234, 1234⟩ s1).isFinished = true ↔
        (firstToken (str "exit now") = some EXIT ∧
          ∀ c, (str "exit now").head? = some c → isspace c = false)) ∧
      ((run ⟨1234, 1234⟩ s1).isFinished = true → (run ⟨1234, 1234⟩ s1).jobs = main.jobs) ∧
      ((run ⟨1234, 1234⟩ s1).isFinished = false → str "exit now" ≠ [] →
        run ⟨1234, 1234⟩ s1 = { startJob ⟨1234, 1234⟩ s1 with isProcessRunning := false })) ∧
    (∃ s1, simulateShell ((str "exit" ++ [NEW_LINE]) :: []) main = some (s1, []) ∧
      ((run ⟨1234, 1234⟩ s1).isFinished = true ↔
        (firstToken (str "exit") = some EXIT ∧
          ∀ c, (str "exit").head? = some c → isspace c = false)) ∧
      ((run ⟨1234, 1234⟩ s1).isFinished = true → (run ⟨1234, 1234⟩ s1).jobs = main.jobs) ∧
      ((run ⟨1234, 1234⟩ s1).isFinished = false → str "exit" ≠ [] →
        run ⟨1234, 1234⟩ s1 = { startJob ⟨1234, 1234⟩ s1 with isProcessRunning := false })) :=
  ⟨run_sets_isFinished_iff (str "exit now") (by decide) (by decide) ⟨1234, 1234⟩ main rfl [],
   run_sets_isFinished_iff (str "exit") (by decide) (by decide) ⟨1234, 1234⟩ main rfl []⟩

/-! ## Claim C5: no command -/

/-- Claim C6, the code at the failing input: a line of exactly 512 characters `a` followed
by its newline is flagged by the Reader, and the Executor then reports it and runs nothing;
the longest line that is accepted and run has 511 characters. -/
theorem line_of_512_characters_is_flagged :
    (simulateShell [List.replicate 512 97 ++ [NEW_LINE]] main).map
        (fun r => (r.1.isInputTooLong, (run ⟨1234, 1234⟩ r.1).jobs,
          (run ⟨1234, 1234⟩ r.1).reports))
      = some (true, [], [Report.inputTooLong]) ∧
    (simulateShell [List.replicate 511 97 ++ [NEW_LINE]] main).map
        (fun r => (r.1.isInputTooLong, (run ⟨1234, 1234⟩ r.1).jobs))
      = some (false, [Job.mk none none false [some (List.replicate 511 97), none]]) := by
  set_option maxRecDepth 100000 in decide

/-! ## Claim C8: the disposition of `SIGINT` -/

/-- Claim C8, refuted as stated: the shell starts with `handler` installed for `SIGINT`;
the line `ls` with a successful `fork` is a foreground job; when `startJob` returns, the
disposition of `SIGINT` is `killHandler`, not `handler` again. -/
theorem startJob_does_not_restore_handler :
    main.sigint = Handler.handler ∧
    (startJob ⟨1234, 1234⟩ { main with buffer := lineBuffer (str "ls") }).jobs
      = [Job.mk none none false [some (str "ls"), none]] ∧
    (startJob ⟨1234, 1234⟩ { main with buffer := lineBuffer (str "ls") }).sigint
      ≠ Handler.handler := by
  set_option maxRecDepth 100000 in decide

/-- Claim C8, as amended: whenever `startJob` has forked a foreground job, the shell was
blocked in `wait` with `killHandler` installed for `SIGINT`, and `killHandler` is still
installed when `startJob` returns; on an interrupt whose forwarding to the child fails,
`killHandler` flushes the same text as the interactive `handler`. -/
theorem startJob_foreground_sigint (env : Env) (s : State) (job : Job)
    (hjob : (startJob env s).jobs = s.jobs ++ [job]) (hfg : job.background = false) :
    (startJob env s).waits = s.waits ++ [Handler.killHandler] ∧
    (startJob env s).sigint = Handler.killHandler ∧
    ∀ r : Int, r ≠ 0 → killHandler Signal.SIGINT r = handler Signal.SIGINT := by
  have hk : ∀ r : Int, r ≠ 0 → killHandler Signal.SIGINT r = handler Signal.SIGINT := by
    intro r hr
    simp [killHandler, handler, hr]
  rcases startJob_jobs_cases env s with h | ⟨args, h, hf⟩
  · rw [h] at hjob; simp at hjob
  · rw [startJob_jobs_some env s args h hf] at hjob
    have hj := List.append_cancel_left hjob
    simp only [List.cons.injEq, and_true] at hj
    rw [← hj] at hfg
    simp only at hfg
    unfold startJob startJobParent initSigAction
    simp only [h, hf, hfg, if_true, Bool.false_eq_true, if_false]
    refine ⟨?_, ?_, hk⟩ <;> by_cases hw : env.wait = -1 <;> simp [hw]

/-- Witness of `startJob_foreground_sigint`: the line `ls` run from the startup state. -/
theorem startJob_foreground_sigint_witness :
    (startJob ⟨1234, 1234⟩ { main with buffer := lineBuffer (str "ls") }).waits
      = ({ main with buffer := lineBuffer (str "ls") } : State).waits ++ [Handler.killHandler] ∧
    (startJob ⟨1234, 1234⟩ { main with buffer := lineBuffer (str "ls") }).sigint
      = Handler.killHandler ∧
    ∀ r : Int, r ≠ 0 → killHandler Signal.SIGINT r = handler Signal.SIGINT :=
  startJob_foreground_sigint ⟨1234, 1234⟩ { main with buffer := lineBuffer (str "ls") }
    (Job.mk none none false [some (str "ls"), none])
    (by set_option maxRecDepth 100000 in decide) rfl

/-! ## Claim C9: a redirection whose file cannot be opened -/

/-- Claim C9, the code at the failing input: a child that inherited the three standard
streams and whose output file `out.txt` cannot be opened is left by `dump` with standard
output closed, not with the stream it inherited; `suck` does the same to standard input
when `in.txt` cannot be opened. -/
theorem dump_suck_close_stream_on_open_failure :
    dump (fun _ => false) (some (str "out.txt")) stdStreams
      = ([some (File.inherited 0), none, some (File.inherited 2)], [Report.cantOpenOutput]) ∧
    suck (fun _ => false) (some (str "in.txt")) stdStreams
      = ([none, some (File.inherited 1), some (File.inherited 2)], [Report.cantOpenInput]) := by
  decide

/-! ## Claim C10: a line that arrives in several reads -/

/-- Claim C10, the code at the failing input: when the line `abc` arrives as the two reads
`ab` and `c` with the newline, the Reader hands over the bytes of the second read alone,
the newline included, where a single read of the line hands over `abc`. -/
theorem simulateShell_keeps_last_read_only :
    (simulateShell [str "ab", str "c\n"] main).map (fun r => r.1.buffer)
      = some (lineBuffer (str "c\n")) ∧
    (simulateShell [str "abc\n"] main).map (fun r => r.1.buffer)
      = some (lineBuffer (str "abc")) := by
  set_option maxRecDepth 100000 in decide

end Shell
